import Mathlib

/-!
# filing-cabinet: the store, the node list and the watch loop

A shallow embedding of `cabinet.go`.  The program keeps a bolt database
`cabinet.db` under a root directory, adds and pins every file of the root on
an IPFS daemon, records `path => hash` in the database, keeps a comma-joined
list of node identities under the key `NODELIST`, and reacts to file-system
events.

Modelling decisions.

* Go strings are Lean strings.  Go errors are `Option String` (`none` is `nil`).
* The bolt file is a finite map from bucket names to buckets, a bucket a finite
  map from keys to values, both as association lists.  A database file that
  does not exist yet is created by `bolt.Open` holding no bucket; the model
  does not tell the two apart.
* Everything the program asks of the operating system and of the IPFS daemon
  is answered by an environment `Env`, fixed while one operation runs.
* A run is a function from a state to an outcome.  The state carries the disk
  (the bolt files), the trace of store and network calls, and the error lines
  sent to the logger (the `event:` lines and what `fmt` prints are left out).
  `log.Fatal` ends a run with `Outcome.fatal`, a nil dereference with
  `Outcome.panic`.
* `filepath.Walk` is the walk of the current Go library over a tree given as
  data; `filepath.Join` is `path.Join`, as on Unix.
-/

namespace Cabinet

/-! ## Constants -/

def ipfsNode : String := "localhost:5001"
def boltDB : String := "cabinet.db"
def nodeList : String := "NODELIST"

/-- A Go `error`: `none` is `nil`. -/
abbrev GoError := Option String

/-! ## `path.Join` (Go standard library) -/

namespace path

/-- The backtracking loop of the `..` case of `path.Clean`: starting from
write index `w`, step back while `w > dotdot` and the byte at `w` is no slash. -/
def backtrack (out : List Char) (dotdot : Nat) : Nat → Nat
  | 0 => 0
  | w + 1 =>
    if w + 1 > dotdot ∧ out.get? (w + 1) ≠ some '/' then backtrack out dotdot w else w + 1

/-- The main loop of `path.Clean`.  `rest` is the unread part of the path,
`out` the output buffer, `dotdot` the index below which the buffer may not be
cut; the first argument bounds the number of rounds. -/
def cleanLoop (rooted : Bool) : Nat → List Char → List Char → Nat → List Char
  | 0, _, out, _ => out
  | _ + 1, [], out, _ => out
  | n + 1, c :: t, out, dotdot =>
    if c = '/' then
      cleanLoop rooted n t out dotdot
    else if c = '.' ∧ (t = [] ∨ t.head? = some '/') then
      cleanLoop rooted n t out dotdot
    else if c = '.' ∧ t.head? = some '.' ∧ (t.tail = [] ∨ t.tail.head? = some '/') then
      if out.length > dotdot then
        cleanLoop rooted n t.tail (out.take (backtrack out dotdot (out.length - 1))) dotdot
      else if rooted = false then
        let out1 := if out.length > 0 then out ++ ['/'] else out
        cleanLoop rooted n t.tail (out1 ++ ['.', '.']) (out1.length + 2)
      else
        cleanLoop rooted n t.tail out dotdot
    else
      let out1 :=
        if (rooted = true ∧ out.length ≠ 1) ∨ (rooted = false ∧ out.length ≠ 0) then out ++ ['/']
        else out
      cleanLoop rooted n ((c :: t).dropWhile (fun x => x != '/'))
        (out1 ++ (c :: t).takeWhile (fun x => x != '/')) dotdot

/-- Go `path.Clean`. -/
def Clean (p : String) : String :=
  match p.data with
  | [] => "."
  | c :: t =>
    let rooted : Bool := c = '/'
    let out := cleanLoop rooted (p.length + 1) (if rooted then t else c :: t)
      (if rooted then ['/'] else []) (if rooted then 1 else 0)
    if out = [] then "." else String.mk out

/-- Go `path.Join` of two elements: the elements from the first non-empty one
on, joined by a slash and cleaned; the empty string when both are empty. -/
def Join (a b : String) : String :=
  if a = "" then (if b = "" then "" else Clean b) else Clean (a ++ "/" ++ b)

end path

/-! ## The bolt store -/

/-- A bucket: keys and their values. -/
abbrev Bucket := List (String × String)

/-- A bolt database: named buckets. -/
abbrev DB := List (String × Bucket)

/-- The bolt files on disk, by file path.  A path without an entry is a file
that holds no bucket. -/
abbrev Disk := List (String × DB)

/-- Look a key up in an association list. -/
def kvGet {β : Type} (k : String) : List (String × β) → Option β
  | [] => none
  | (k1, v) :: rest => if k1 = k then some v else kvGet k rest

/-- Set a key in an association list: overwrite in place, or append. -/
def kvPut {β : Type} (k : String) (v : β) : List (String × β) → List (String × β)
  | [] => [(k, v)]
  | (k1, v1) :: rest => if k1 = k then (k, v) :: rest else (k1, v1) :: kvPut k v rest

/-- The database held by the bolt file at `file`. -/
def diskGet (d : Disk) (file : String) : DB := (kvGet file d).getD []

/-- Bolt `MaxKeySize`. -/
def MaxKeySize : Nat := 32768

/-- Bolt `MaxValueSize`, `(1 << 31) - 2`. -/
def MaxValueSize : Nat := 2147483646

/-- Bolt `tx.Bucket(name)`: the bucket, or `none` for the nil bucket.  Bolt
holds no bucket with a blank name (`CreateBucket` refuses one), so a blank name
finds none. -/
def txBucket (db : DB) (name : String) : Option Bucket :=
  if name = "" then none else kvGet name db

/-- Bolt `tx.CreateBucketIfNotExists(name)`: the database with the bucket in
it, and the bucket.  A blank name is `ErrBucketNameRequired`. -/
def createBucketIfNotExists (db : DB) (name : String) : Except String (DB × Bucket) :=
  if name = "" then .error "bucket name required"
  else
    match kvGet name db with
    | some b => .ok (db, b)
    | none => .ok (kvPut name [] db, [])

/-- Bolt `bucket.Put(key, value)` on a writable bucket: `ErrKeyRequired`,
`ErrKeyTooLarge` and `ErrValueTooLarge` are its failures. -/
def bucketPut (b : Bucket) (key value : String) : Except String Bucket :=
  if key = "" then .error "key required"
  else if key.utf8ByteSize > MaxKeySize then .error "key too large"
  else if value.utf8ByteSize > MaxValueSize then .error "value too large"
  else .ok (kvPut key value b)

/-- Bolt `bucket.Get(key)` on a bucket that is not nil, converted by
`string(v)`: a missing key gives the nil slice, hence the empty string. -/
def bucketGet (b : Bucket) (key : String) : String := (kvGet key b).getD ""

/-! ## Environment, state and runs -/

/-- The answers of the operating system and of the IPFS daemon. -/
structure Env where
  /-- Result of `bolt.Open(file, 0600, nil)`: the error, if any. -/
  boltOpen : String → GoError
  /-- Result of `os.Stat(loc)`: whether it is a directory, `none` on error. -/
  Stat : String → Option Bool
  /-- Result of `os.Open(loc)`: the error, if any. -/
  Open : String → GoError
  /-- Result of `s.Add(fi)`; `fi` is the path of the opened file, or `none`
  for the nil file a failed `os.Open` leaves. -/
  Add : Option String → String × GoError
  /-- Result of `s.Pin(hash)`. -/
  Pin : String → GoError
  /-- Result of `s.Publish(node, value)`. -/
  Publish : String → String → GoError
  /-- Result of `s.Resolve(id)`. -/
  Resolve : String → String × GoError
  /-- Result of `s.ID()`: the `ID` field of the answer, and the error. -/
  ID : String × GoError
  /-- Result of `fsnotify.NewWatcher()`. -/
  NewWatcher : GoError
  /-- Result of `watcher.Add(root)`. -/
  WatcherAdd : String → GoError

/-- A call on the store or on the network client. -/
inductive Call where
  | Write (loc handle root mhash : String)
  | Read (id handle root : String)
  | PrintDB (handle root : String)
  | Add (fi : Option String)
  | Pin (mhash : String)
  | Publish (node value : String)
  | Resolve (id : String)
  | ID
  deriving DecidableEq, Repr

/-- The state of a run. -/
structure St where
  disk : Disk
  trace : List Call
  log : List String
  deriving DecidableEq, Repr

/-- How a run ends: it returns a value, or the process exits through
`log.Fatal`, or it dies of a nil dereference. -/
inductive Outcome (α : Type) where
  | ok (a : α) (s : St)
  | fatal (s : St)
  | panic (s : St)
  deriving DecidableEq, Repr

/-- The state a run ends in. -/
def Outcome.state {α : Type} : Outcome α → St
  | .ok _ s => s
  | .fatal s => s
  | .panic s => s

/-- A run. -/
def Proc (α : Type) : Type := St → Outcome α

def Proc.pure {α : Type} (a : α) : Proc α := fun s => .ok a s

def Proc.bind {α β : Type} (x : Proc α) (f : α → Proc β) : Proc β := fun s =>
  match x s with
  | .ok a s1 => f a s1
  | .fatal s1 => .fatal s1
  | .panic s1 => .panic s1

instance : Monad Proc where
  pure := Proc.pure
  bind := Proc.bind

/-- The state with one more call in the trace. -/
def St.called (s : St) (c : Call) : St :=
  { disk := s.disk, trace := s.trace ++ [c], log := s.log }

/-- The state with one more line in the log. -/
def St.logged (s : St) (line : String) : St :=
  { disk := s.disk, trace := s.trace, log := s.log ++ [line] }

/-- The state with another disk. -/
def St.withDisk (s : St) (d : Disk) : St :=
  { disk := d, trace := s.trace, log := s.log }

/-- Record a call in the trace. -/
def call (c : Call) : Proc Unit := fun s => .ok () (s.called c)

/-- Go `log.Println("error:", err)`. -/
def logError (err : String) : Proc Unit := fun s => .ok () (s.logged ("error: " ++ err))

/-- Go `log.Fatal(err)`: print and exit with status 1. -/
def logFatal {α : Type} (err : String) : Proc α := fun s => .fatal (s.logged err)

/-- A nil dereference: the process dies. -/
def nilPanic {α : Type} : Proc α := fun s => .panic s

/-- Bolt `db.Update(fn)` on the file `file`: commit what `fn` built, or roll
back and hand out its error. -/
def dbUpdate (file : String) (fn : DB → Except String DB) : Proc GoError := fun s =>
  match fn (diskGet s.disk file) with
  | .ok db => .ok none (s.withDisk (kvPut file db s.disk))
  | .error e => .ok (some e) s

/-- The database a `db.View` transaction on the file `file` sees. -/
def dbView (file : String) : Proc DB := fun s => .ok (diskGet s.disk file) s

/-! ## The store functions of `cabinet.go` -/

/-- The function `Write` hands to `db.Update`: create the bucket of the
handle if it is not there, and put the pair. -/
def writeTx (loc handle mhash : String) (db : DB) : Except String DB :=
  match createBucketIfNotExists db handle with
  | .error e => .error e
  | .ok (db1, bucket) =>
    match bucketPut bucket loc mhash with
    | .error e => .error e
    | .ok bucket1 => .ok (kvPut handle bucket1 db1)

/-- Go `Write`.  The result of `db.Update` is dropped and `nil` returned. -/
def Write (env : Env) (loc handle root mhash : String) : Proc GoError := do
  call (.Write loc handle root mhash)
  match env.boltOpen (path.Join root boltDB) with
  | some err => return some err
  | none =>
    let _ ← dbUpdate (path.Join root boltDB) (writeTx loc handle mhash)
    return none

/-- Go `Read`.  `tx.Bucket` gives the nil bucket when there is none, and
`bucket.Get` on it dereferences nil. -/
def Read (env : Env) (id handle root : String) : Proc (String × GoError) := do
  call (.Read id handle root)
  match env.boltOpen (path.Join root boltDB) with
  | some err => return ("", some err)
  | none =>
    let db ← dbView (path.Join root boltDB)
    match txBucket db handle with
    | none => nilPanic
    | some bucket => return (bucketGet bucket id, none)

/-- Go `PrintDB`.  `bucket.ForEach` on the nil bucket dereferences nil; what
it prints goes to standard output and is not modelled. -/
def PrintDB (env : Env) (handle root : String) : Proc GoError := do
  call (.PrintDB handle root)
  match env.boltOpen (path.Join root boltDB) with
  | some err => return some err
  | none =>
    let db ← dbView (path.Join root boltDB)
    match txBucket db handle with
    | none => nilPanic
    | some _ => return none

/-! ## The network client -/

namespace shell

/-- Go `s.Add(fi)`. -/
def Add (env : Env) (fi : Option String) : Proc (String × GoError) := do
  call (.Add fi)
  return env.Add fi

/-- Go `s.Pin(hash)`. -/
def Pin (env : Env) (mhash : String) : Proc GoError := do
  call (.Pin mhash)
  return env.Pin mhash

/-- Go `s.Publish(node, value)`. -/
def Publish (env : Env) (node value : String) : Proc GoError := do
  call (.Publish node value)
  return env.Publish node value

/-- Go `s.Resolve(id)`. -/
def Resolve (env : Env) (id : String) : Proc (String × GoError) := do
  call (.Resolve id)
  return env.Resolve id

/-- Go `s.ID()`. -/
def ID (env : Env) : Proc (String × GoError) := do
  call .ID
  return env.ID

end shell

/-- Go `os.Open(loc)`: the file (its path) and the error; the file is nil
when the call fails. -/
def osOpen (env : Env) (loc : String) : Option String × GoError :=
  match env.Open loc with
  | some err => (none, some err)
  | none => (some loc, none)

/-- Go `if err != nil { log.Println("error:", err) }`. -/
def logIfError : GoError → Proc Unit
  | some err => logError err
  | none => pure ()

/-- Go `if err != nil { log.Fatal(err) }`. -/
def fatalIfError : GoError → Proc Unit
  | some err => logFatal err
  | none => pure ()

/-! ## `Upload` -/

/-- A directory tree as `filepath.Walk` meets it: an entry that `os.Lstat`
reports as no directory, a directory with the error of reading its names (if
any) and its entries in the order they are read, or an entry on which
`os.Lstat` fails. -/
inductive Tree where
  | file (name : String)
  | dir (name : String) (readErr : GoError) (entries : List Tree)
  | noLstat (name : String) (err : String)

/-- The name of an entry within its directory. -/
def Tree.name : Tree → String
  | .file n => n
  | .dir n _ _ => n
  | .noLstat n _ => n

mutual
/-- Go `filepath.walk` with a callback that looks at its path argument only
and never answers `SkipDir`.  An entry whose `Lstat` fails gets the callback
like a file does. -/
def walk (fn : String → Proc GoError) (p : String) : Tree → Proc GoError
  | .file _ => fn p
  | .noLstat _ _ => fn p
  | .dir _ readErr entries => do
    let err1 ← fn p
    if readErr.isSome || err1.isSome then return err1 else walkEntries fn p entries
/-- The loop of `filepath.walk` over the names of a directory. -/
def walkEntries (fn : String → Proc GoError) (p : String) : List Tree → Proc GoError
  | [] => return none
  | t :: rest => do
    let err ← walk fn (path.Join p t.name) t
    if err.isSome then return err else walkEntries fn p rest
end

/-- The callback `Upload` hands to `filepath.Walk`.  `os.Stat` answers the
nil `FileInfo` on failure, on which `stat.IsDir()` dereferences nil. -/
def uploadFn (env : Env) (handle root loc : String) : Proc GoError := do
  match env.Stat loc with
  | none => nilPanic
  | some true => return none
  | some false =>
    let (fi, err) := osOpen env loc
    if err.isSome then return err
    let (mhash, err) ← shell.Add env fi
    if err.isSome then return err
    let _ ← Write env loc handle root mhash
    let err ← shell.Pin env mhash
    if err.isSome then return err
    return none

/-- Go `Upload`, on the tree found at `root`. -/
def Upload (env : Env) (handle root : String) (tree : Tree) : Proc GoError :=
  walk (uploadFn env handle root) root tree

/-! ## `UpdateNodeList` -/

namespace strings

/-- Split a character sequence at every occurrence of `sep`. -/
def splitChars (sep : Char) : List Char → List (List Char)
  | [] => [[]]
  | c :: t =>
    if c = sep then [] :: splitChars sep t
    else
      match splitChars sep t with
      | [] => [[c]]
      | h :: r => (c :: h) :: r

/-- Go `strings.Split(s, sep)` for a separator of one character: the pieces
of `s` between the separators, one more than there are separators. -/
def Split (s : String) (sep : Char) : List String :=
  (splitChars sep s.data).map String.mk

end strings

/-- Go `UpdateNodeList`. -/
def UpdateNodeList (env : Env) (handle root : String) : Proc GoError := do
  let (id, err) ← shell.ID env
  fatalIfError err
  let (nodes, err) ← Read env nodeList handle root
  if err.isSome then return err
  if nodes ≠ "" then
    let nodeArray := strings.Split nodes ','
    let nodeInList := nodeArray.any (fun node => node == id)
    if nodeInList = false then
      let _ ← Write env nodeList handle root (id ++ "," ++ nodes)
  else
    let _ ← Write env nodeList handle root id
  return none

/-! ## `Watch` -/

namespace fsnotify

/-- The `Op` bit of a create event. -/
def Create : Nat := 1

/-- The `Op` bit of a write event. -/
def Write : Nat := 2

/-- An `fsnotify.Event`. -/
structure Event where
  Name : String
  Op : Nat
  deriving DecidableEq, Repr

end fsnotify

/-- What follows the hashing in both branches of the loop of `Watch` (lines
162 to 184 and 202 to 224, the same statements): record, pin, print, read the
hash recorded for the database file, publish and resolve. -/
def recordAndPublish (env : Env) (id handle root name newHash : String) : Proc Unit := do
  let _ ← Write env name handle root newHash
  let err ← shell.Pin env newHash
  logIfError err
  let _ ← PrintDB env handle root
  let (dbHash, err) ← Read env (path.Join root boltDB) handle root
  fatalIfError err
  let err ← shell.Publish env "" dbHash
  fatalIfError err
  let (_, err) ← shell.Resolve env id
  fatalIfError err

/-- The body of `case event := <-watcher.Events` in `Watch`. -/
def onEvent (env : Env) (id handle root : String) (event : fsnotify.Event) : Proc Unit := do
  if event.Op &&& fsnotify.Create = fsnotify.Create then
    let (fi, err) := osOpen env event.Name
    logIfError err
    let (newHash, err) ← shell.Add env fi
    logIfError err
    recordAndPublish env id handle root event.Name newHash
  else if event.Op &&& fsnotify.Write = fsnotify.Write then
    if event.Name ≠ path.Join root boltDB then
      let (curHash, err) ← Read env event.Name handle root
      logIfError err
      let (fi, err) := osOpen env event.Name
      logIfError err
      let (newHash, err) ← shell.Add env fi
      logIfError err
      if newHash ≠ curHash then
        recordAndPublish env id handle root event.Name newHash

/-- What the watcher delivers: an event, or an error. -/
inductive Msg where
  | event (e : fsnotify.Event)
  | error (err : String)

/-- The loop of `Watch` over what the watcher delivers, each message with
the environment it is processed in. -/
def watchLoop (id handle root : String) : List (Env × Msg) → Proc Unit
  | [] => pure ()
  | (env, .event e) :: rest => do
    onEvent env id handle root e
    watchLoop id handle root rest
  | (_, .error err) :: rest => do
    logError err
    watchLoop id handle root rest

/-- Go `Watch`, on the messages the watcher delivers until the process is
killed. -/
def Watch (env : Env) (handle root : String) (msgs : List (Env × Msg)) : Proc Unit := do
  fatalIfError env.NewWatcher
  let (id, err) ← shell.ID env
  fatalIfError err
  fatalIfError (env.WatcherAdd root)
  watchLoop id handle root msgs

/-! ## Auxiliary definitions for the statements -/

/-- The disk after the update of `Write`: the pair is committed, or the
transaction is rolled back. -/
def diskAfterWrite (d : Disk) (loc handle root mhash : String) : Disk :=
  match writeTx loc handle mhash (diskGet d (path.Join root boltDB)) with
  | .ok db => kvPut (path.Join root boltDB) db d
  | .error _ => d

/-- The state after `if err != nil { log.Println("error:", err) }`. -/
def St.logIf (s : St) : GoError → St
  | some e => s.logged ("error: " ++ e)
  | none => s

/-- The state in which `recordAndPublish` calls `Publish`, when the store
opens and holds the bucket of the handle. -/
def stAtPublish (env : Env) (handle root name newHash dbHash : String) (s : St) : St :=
  ((((((s.called (.Write name handle root newHash)).withDisk
    (diskAfterWrite s.disk name handle root newHash)).called (.Pin newHash)).logIf
    (env.Pin newHash)).called (.PrintDB handle root)).called
    (.Read (path.Join root boltDB) handle root)).called (.Publish "" dbHash)

/-- The state after `Write`: the call is in the trace and, when the store
opens, the disk is the disk after the update. -/
def St.written (s : St) (env : Env) (loc handle root mhash : String) : St :=
  match env.boltOpen (path.Join root boltDB) with
  | some _ => s.called (.Write loc handle root mhash)
  | none => (s.called (.Write loc handle root mhash)).withDisk
      (diskAfterWrite s.disk loc handle root mhash)

/-- The line `if err != nil { log.Println("error:", err) }` sends to the
logger, if any. -/
def errLine : GoError → List String
  | some e => ["error: " ++ e]
  | none => []

/-- The state of an event branch after `os.Open` and `Add`, their errors
logged. -/
def St.hashed (s : St) (env : Env) (name : String) : St :=
  ((s.logIf (osOpen env name).2).called (.Add (osOpen env name).1)).logIf
    (env.Add (osOpen env name).1).2

/-- What holds of the calls `Upload` makes: every `Write` is made with the
handle and the root of the run, for a path that `os.Stat` reports as no
directory and that opened, with the hash that `Add` returned without error
for it, and it stands between that `Add` and the `Pin` of the hash. -/
def HashedThenPinned (env : Env) (handle root : String) (cs : List Call) : Prop :=
  ∀ loc h r m, Call.Write loc h r m ∈ cs →
    h = handle ∧ r = root ∧ env.Stat loc = some false ∧ env.Open loc = none ∧
    env.Add (some loc) = (m, none) ∧
    ∃ pre post, cs = pre ++ [.Add (some loc), .Write loc h r m, .Pin m] ++ post

/-! ## Sample inputs -/

/-- An environment in which every call succeeds: `Add` answers `hash`, the
node identity is `node`, and `isDir` tells the directories. -/
def calmEnv (hash node : String) (isDir : String → Bool) : Env where
  boltOpen := fun _ => none
  Stat := fun loc => some (isDir loc)
  Open := fun _ => none
  Add := fun _ => (hash, none)
  Pin := fun _ => none
  Publish := fun _ _ => none
  Resolve := fun i => (i, none)
  ID := (node, none)
  NewWatcher := none
  WatcherAdd := fun _ => none

/-- The environment `calmEnv` with a failing `Pin`. -/
def pinFailsEnv (hash node : String) (isDir : String → Bool) : Env where
  boltOpen := fun _ => none
  Stat := fun loc => some (isDir loc)
  Open := fun _ => none
  Add := fun _ => (hash, none)
  Pin := fun _ => some "pin: context deadline exceeded"
  Publish := fun _ _ => none
  Resolve := fun i => (i, none)
  ID := (node, none)
  NewWatcher := none
  WatcherAdd := fun _ => none

/-- The environment `calmEnv` in which `Add` fails on the directories, as
reading a directory does, and answers the empty hash. -/
def dirEnv (hash node : String) (isDir : String → Bool) : Env where
  boltOpen := fun _ => none
  Stat := fun loc => some (isDir loc)
  Open := fun _ => none
  Add := fun fi =>
    match fi with
    | some loc => if isDir loc then ("", some "read: is a directory") else (hash, none)
    | none => ("", some "invalid argument")
  Pin := fun _ => none
  Publish := fun _ _ => none
  Resolve := fun i => (i, none)
  ID := (node, none)
  NewWatcher := none
  WatcherAdd := fun _ => none

/-- The environment `calmEnv` with a failing `Publish`. -/
def publishFailsEnv (hash node : String) (isDir : String → Bool) : Env where
  boltOpen := fun _ => none
  Stat := fun loc => some (isDir loc)
  Open := fun _ => none
  Add := fun _ => (hash, none)
  Pin := fun _ => none
  Publish := fun _ _ => some "publish: connection refused"
  Resolve := fun i => (i, none)
  ID := (node, none)
  NewWatcher := none
  WatcherAdd := fun _ => none

/-- The environment `calmEnv` in which `bolt.Open` fails. -/
def closedStoreEnv (hash node : String) : Env where
  boltOpen := fun _ => some "open cabinet.db: permission denied"
  Stat := fun _ => some false
  Open := fun _ => none
  Add := fun _ => (hash, none)
  Pin := fun _ => none
  Publish := fun _ _ => none
  Resolve := fun i => (i, none)
  ID := (node, none)
  NewWatcher := none
  WatcherAdd := fun _ => none

/-- The state of a fresh run on a disk. -/
def freshOn (d : Disk) : St := { disk := d, trace := [], log := [] }

/-- A disk on which `/r/cabinet.db` holds the bucket `jack` with the given
pairs. -/
def jackDisk (pairs : Bucket) : Disk := [("/r/cabinet.db", [("jack", pairs)])]

/-! ## Association lists -/

theorem kvGet_kvPut_same {β : Type} (k : String) (v : β) (l : List (String × β)) :
    kvGet k (kvPut k v l) = some v := by
  induction l with
  | nil => simp [kvPut, kvGet]
  | cons kv rest ih =>
    obtain ⟨k1, v1⟩ := kv
    by_cases h : k1 = k
    · simp [kvPut, kvGet, h]
    · simp [kvPut, kvGet, h, ih]

theorem kvGet_kvPut_other {β : Type} (k k2 : String) (v : β) (l : List (String × β))
    (hne : k ≠ k2) : kvGet k2 (kvPut k v l) = kvGet k2 l := by
  induction l with
  | nil => simp [kvPut, kvGet, hne]
  | cons kv rest ih =>
    obtain ⟨k1, v1⟩ := kv
    by_cases h : k1 = k
    · subst h
      simp [kvPut, kvGet, hne]
    · by_cases h2 : k1 = k2
      · subst h2
        simp [kvPut, kvGet, h]
      · simp [kvPut, kvGet, h, h2, ih]

/-! ## Runs, step by step -/

@[simp] theorem Proc.pure_apply {α : Type} (a : α) (s : St) :
    (Pure.pure a : Proc α) s = .ok a s := rfl

@[simp] theorem Proc.bind_apply {α β : Type} (x : Proc α) (f : α → Proc β) (s : St) :
    (x >>= f) s = Proc.bind x f s := rfl

theorem Proc.bind_ok {α β : Type} (x : Proc α) (f : α → Proc β) (s s1 : St) (a : α)
    (h : x s = .ok a s1) : Proc.bind x f s = f a s1 := by
  simp [Proc.bind, h]

theorem Proc.bind_fatal {α β : Type} (x : Proc α) (f : α → Proc β) (s s1 : St)
    (h : x s = .fatal s1) : Proc.bind x f s = .fatal s1 := by
  simp [Proc.bind, h]

@[simp] theorem St.called_disk (s : St) (c : Call) : (s.called c).disk = s.disk := rfl
@[simp] theorem St.called_trace (s : St) (c : Call) : (s.called c).trace = s.trace ++ [c] := rfl
@[simp] theorem St.called_log (s : St) (c : Call) : (s.called c).log = s.log := rfl
@[simp] theorem St.logged_disk (s : St) (l : String) : (s.logged l).disk = s.disk := rfl
@[simp] theorem St.logged_trace (s : St) (l : String) : (s.logged l).trace = s.trace := rfl
@[simp] theorem St.logged_log (s : St) (l : String) : (s.logged l).log = s.log ++ [l] := rfl
@[simp] theorem St.withDisk_disk (s : St) (d : Disk) : (s.withDisk d).disk = d := rfl
@[simp] theorem St.withDisk_trace (s : St) (d : Disk) : (s.withDisk d).trace = s.trace := rfl
@[simp] theorem St.withDisk_log (s : St) (d : Disk) : (s.withDisk d).log = s.log := rfl

theorem Read_eq (env : Env) (id handle root : String) (s : St) :
    Read env id handle root s =
      match env.boltOpen (path.Join root boltDB) with
      | some e => .ok ("", some e) (s.called (.Read id handle root))
      | none =>
        match txBucket (diskGet s.disk (path.Join root boltDB)) handle with
        | none => .panic (s.called (.Read id handle root))
        | some b => .ok (bucketGet b id, none) (s.called (.Read id handle root)) := by
  unfold Read
  cases h : env.boltOpen (path.Join root boltDB) with
  | some e => simp [Proc.bind, call]
  | none =>
    simp only [Proc.bind_apply, Proc.bind, call, dbView]
    cases h2 : txBucket (diskGet s.disk (path.Join root boltDB)) handle <;> simp [nilPanic, h2]

theorem PrintDB_eq (env : Env) (handle root : String) (s : St) :
    PrintDB env handle root s =
      match env.boltOpen (path.Join root boltDB) with
      | some e => .ok (some e) (s.called (.PrintDB handle root))
      | none =>
        match txBucket (diskGet s.disk (path.Join root boltDB)) handle with
        | none => .panic (s.called (.PrintDB handle root))
        | some _ => .ok none (s.called (.PrintDB handle root)) := by
  unfold PrintDB
  cases h : env.boltOpen (path.Join root boltDB) with
  | some e => simp [Proc.bind, call]
  | none =>
    simp only [Proc.bind_apply, Proc.bind, call, dbView]
    cases h2 : txBucket (diskGet s.disk (path.Join root boltDB)) handle <;> simp [nilPanic, h2]

theorem Write_eq (env : Env) (loc handle root mhash : String) (s : St) :
    Write env loc handle root mhash s =
      match env.boltOpen (path.Join root boltDB) with
      | some e => .ok (some e) (s.called (.Write loc handle root mhash))
      | none => .ok none
          ((s.called (.Write loc handle root mhash)).withDisk
            (diskAfterWrite s.disk loc handle root mhash)) := by
  unfold Write
  cases h : env.boltOpen (path.Join root boltDB) with
  | some e => simp [Proc.bind, call]
  | none =>
    simp only [Proc.bind_apply, Proc.bind, call, dbUpdate, diskAfterWrite, St.called_disk]
    cases h2 : writeTx loc handle mhash (diskGet s.disk (path.Join root boltDB)) <;>
      simp [St.withDisk, St.called]

theorem kvPut_kvPut {β : Type} (k : String) (v v0 : β) (l : List (String × β)) :
    kvPut k v (kvPut k v0 l) = kvPut k v l := by
  induction l with
  | nil => simp [kvPut]
  | cons kv rest ih =>
    obtain ⟨k1, v1⟩ := kv
    by_cases h : k1 = k
    · simp [kvPut, h]
    · simp [kvPut, h, ih]

theorem diskGet_kvPut (d : Disk) (file : String) (db : DB) :
    diskGet (kvPut file db d) file = db := by
  simp [diskGet, kvGet_kvPut_same]

/-- The transaction of `Write` commits exactly when the handle and the key
are not blank and key and value fit the limits of bolt; what it commits is
the bucket of the handle with the pair put. -/
theorem writeTx_cases (loc handle mhash : String) (db : DB) :
    (writeTx loc handle mhash db =
        .ok (kvPut handle (kvPut loc mhash ((kvGet handle db).getD [])) db) ∧
      handle ≠ "" ∧ loc ≠ "" ∧ loc.utf8ByteSize ≤ MaxKeySize ∧
      mhash.utf8ByteSize ≤ MaxValueSize) ∨
    ((∃ e, writeTx loc handle mhash db = .error e) ∧
      (handle = "" ∨ loc = "" ∨ MaxKeySize < loc.utf8ByteSize ∨
        MaxValueSize < mhash.utf8ByteSize)) := by
  unfold writeTx createBucketIfNotExists bucketPut
  by_cases hh : handle = ""
  · simp [hh]
  · by_cases hl : loc = ""
    · right
      cases hg : kvGet handle db <;> simp [hh, hl]
    · by_cases hk : MaxKeySize < loc.utf8ByteSize
      · right
        cases hg : kvGet handle db <;> simp [hh, hl, hk]
      · by_cases hv : MaxValueSize < mhash.utf8ByteSize
        · right
          cases hg : kvGet handle db <;> simp [hh, hl, hk, hv]
        · left
          cases hg : kvGet handle db <;>
            simp [hh, hl, hk, hv, kvPut_kvPut, Nat.le_of_not_lt hk, Nat.le_of_not_lt hv]

theorem txBucket_some_ne (db : DB) (handle : String) (b : Bucket)
    (h : txBucket db handle = some b) : handle ≠ "" ∧ kvGet handle db = some b := by
  unfold txBucket at h
  by_cases hh : handle = ""
  · simp [hh] at h
  · simp [hh] at h
    exact ⟨hh, h⟩

/-- A bucket that is there before `Write` is there after it. -/
theorem txBucket_diskAfterWrite (d : Disk) (loc handle root mhash : String) (b : Bucket)
    (h : txBucket (diskGet d (path.Join root boltDB)) handle = some b) :
    ∃ b1, txBucket (diskGet (diskAfterWrite d loc handle root mhash) (path.Join root boltDB))
      handle = some b1 := by
  obtain ⟨hne, _⟩ := txBucket_some_ne _ _ _ h
  unfold diskAfterWrite
  rcases writeTx_cases loc handle mhash (diskGet d (path.Join root boltDB)) with
    ⟨hok, _⟩ | ⟨⟨e, herr⟩, _⟩
  · rw [hok]
    simp [diskGet_kvPut, txBucket, hne, kvGet_kvPut_same]
  · rw [herr]
    exact ⟨b, h⟩

@[simp] theorem St.logIf_disk (s : St) (err : GoError) : (s.logIf err).disk = s.disk := by
  cases err <;> rfl
@[simp] theorem St.logIf_trace (s : St) (err : GoError) : (s.logIf err).trace = s.trace := by
  cases err <;> rfl

theorem logIfError_eq (err : GoError) (s : St) : logIfError err s = .ok () (s.logIf err) := by
  cases err <;> rfl

theorem fatalIfError_none (s : St) : fatalIfError none s = .ok () s := rfl

theorem fatalIfError_some (e : String) (s : St) : fatalIfError (some e) s = .fatal (s.logged e) :=
  rfl

theorem shell_Add_eq (env : Env) (fi : Option String) (s : St) :
    shell.Add env fi s = .ok (env.Add fi) (s.called (.Add fi)) := rfl

theorem shell_Pin_eq (env : Env) (mhash : String) (s : St) :
    shell.Pin env mhash s = .ok (env.Pin mhash) (s.called (.Pin mhash)) := rfl

theorem shell_Publish_eq (env : Env) (node value : String) (s : St) :
    shell.Publish env node value s =
      .ok (env.Publish node value) (s.called (.Publish node value)) := rfl

theorem shell_Resolve_eq (env : Env) (id : String) (s : St) :
    shell.Resolve env id s = .ok (env.Resolve id) (s.called (.Resolve id)) := rfl

theorem shell_ID_eq (env : Env) (s : St) :
    shell.ID env s = .ok env.ID (s.called .ID) := rfl

theorem recordAndPublish_eq (env : Env) (id handle root name newHash : String) (s : St)
    (b1 : Bucket) (hopen : env.boltOpen (path.Join root boltDB) = none)
    (hb1 : txBucket (diskGet (diskAfterWrite s.disk name handle root newHash)
      (path.Join root boltDB)) handle = some b1) :
    recordAndPublish env id handle root name newHash s =
      match env.Publish "" (bucketGet b1 (path.Join root boltDB)) with
      | some e => .fatal
          ((stAtPublish env handle root name newHash
            (bucketGet b1 (path.Join root boltDB)) s).logged e)
      | none =>
        match (env.Resolve id).2 with
        | some e => .fatal
            (((stAtPublish env handle root name newHash
              (bucketGet b1 (path.Join root boltDB)) s).called (.Resolve id)).logged e)
        | none => .ok ()
            ((stAtPublish env handle root name newHash
              (bucketGet b1 (path.Join root boltDB)) s).called (.Resolve id)) := by
  unfold recordAndPublish stAtPublish
  simp only [Proc.bind_apply, Proc.bind, Write_eq, hopen, shell_Pin_eq, logIfError_eq,
    PrintDB_eq, Read_eq, St.called_disk, St.withDisk_disk, St.logIf_disk, hb1,
    shell_Publish_eq, shell_Resolve_eq, fatalIfError_none]
  cases hp : env.Publish "" (bucketGet b1 (path.Join root boltDB)) with
  | some e => simp [fatalIfError_some]
  | none =>
    simp only [fatalIfError_none]
    cases hr : (env.Resolve id).2 with
    | some e => simp [fatalIfError_some]
    | none => simp [fatalIfError_none]

/-- When the store does not open, `recordAndPublish` ends in `log.Fatal` at
the read of the hash of the database file, before any publish call. -/
theorem recordAndPublish_open_fails (env : Env) (id handle root name newHash e : String)
    (s : St) (hopen : env.boltOpen (path.Join root boltDB) = some e) :
    recordAndPublish env id handle root name newHash s =
      .fatal ((((((s.called (.Write name handle root newHash)).called (.Pin newHash)).logIf
        (env.Pin newHash)).called (.PrintDB handle root)).called
        (.Read (path.Join root boltDB) handle root)).logged e) := by
  unfold recordAndPublish
  simp [Proc.bind, Write_eq, hopen, shell_Pin_eq, logIfError_eq, PrintDB_eq, Read_eq,
    fatalIfError_some]

/-- What a `Read` that returns tells: the state has the call appended, and
either the store did not open (empty value and the error), or it opened and
the bucket of the handle is there (its value for the key, no error). -/
theorem Read_ok_inv (env : Env) (id handle root : String) (s s1 : St) (v : String)
    (err : GoError) (h : Read env id handle root s = .ok (v, err) s1) :
    s1 = s.called (.Read id handle root) ∧
    ((∃ e, env.boltOpen (path.Join root boltDB) = some e ∧ v = "" ∧ err = some e) ∨
     (env.boltOpen (path.Join root boltDB) = none ∧ err = none ∧
       ∃ b, txBucket (diskGet s.disk (path.Join root boltDB)) handle = some b ∧
         v = bucketGet b id)) := by
  rw [Read_eq] at h
  cases ho : env.boltOpen (path.Join root boltDB) with
  | some e =>
    simp only [ho, Outcome.ok.injEq, Prod.mk.injEq] at h
    exact ⟨h.2.symm, Or.inl ⟨e, rfl, h.1.1.symm, h.1.2.symm⟩⟩
  | none =>
    simp only [ho] at h
    cases hb : txBucket (diskGet s.disk (path.Join root boltDB)) handle with
    | none => simp [hb] at h
    | some b =>
      simp only [hb, Outcome.ok.injEq, Prod.mk.injEq] at h
      exact ⟨h.2.symm, Or.inr ⟨rfl, h.1.2.symm, b, rfl, h.1.1.symm⟩⟩

/-- C1 (change suppression).  A write event (write bit set, create bit not
set) on a path other than the backing file of the store, for which `Read`
returns the very hash that `Add` returns for the opened file: the processing
returns, the only calls it makes are that `Read` and that `Add` (hence no
`Write`, no `Pin`, no `Publish`), and the disk is as before. -/
theorem write_event_same_hash_suppressed (env : Env) (id handle root : String)
    (event : fsnotify.Event) (s s1 : St) (curHash : String) (err : GoError)
    (hcreate : event.Op &&& fsnotify.Create ≠ fsnotify.Create)
    (hwrite : event.Op &&& fsnotify.Write = fsnotify.Write)
    (hname : event.Name ≠ path.Join root boltDB)
    (hread : Read env event.Name handle root s = .ok (curHash, err) s1)
    (hsame : (env.Add (osOpen env event.Name).1).1 = curHash) :
    ∃ s2, onEvent env id handle root event s = .ok () s2 ∧
      s2.disk = s.disk ∧
      s2.trace = s.trace ++
        [.Read event.Name handle root, .Add (osOpen env event.Name).1] ∧
      (∀ c ∈ [Call.Read event.Name handle root, .Add (osOpen env event.Name).1],
        (∀ l h r m, c ≠ .Write l h r m) ∧ (∀ m, c ≠ .Pin m) ∧ (∀ n v, c ≠ .Publish n v)) := by
  obtain ⟨hs1, _⟩ := Read_ok_inv env _ _ _ _ _ _ _ hread
  unfold onEvent
  simp only [hcreate, hwrite, hname, if_true, if_false, ne_eq, not_false_eq_true,
    Proc.bind_apply]
  rw [Proc.bind_ok _ _ _ _ _ hread]
  simp only [Proc.bind_apply, logIfError_eq, Proc.bind, shell_Add_eq, hsame, not_true_eq_false, if_false,
    Proc.pure_apply]
  refine ⟨_, rfl, ?_, ?_, ?_⟩
  · simp [hs1]
  · simp [hs1]
  · simp

/-- Witness for C1: the hash stored for `/r/a.txt` is the hash `Add` returns. -/
theorem write_event_same_hash_suppressed_witness :
    ∃ s2, onEvent (calmEnv "Qm1" "X" (fun _ => false)) "X" "jack" "/r"
        { Name := "/r/a.txt", Op := 2 } (freshOn (jackDisk [("/r/a.txt", "Qm1")])) = .ok () s2 ∧
      s2.disk = jackDisk [("/r/a.txt", "Qm1")] ∧
      s2.trace = [] ++ [.Read "/r/a.txt" "jack" "/r", .Add (some "/r/a.txt")] ∧
      (∀ c ∈ [Call.Read "/r/a.txt" "jack" "/r", .Add (some "/r/a.txt")],
        (∀ l h r m, c ≠ .Write l h r m) ∧ (∀ m, c ≠ .Pin m) ∧ (∀ n v, c ≠ .Publish n v)) :=
  write_event_same_hash_suppressed (calmEnv "Qm1" "X" (fun _ => false)) "X" "jack" "/r"
    { Name := "/r/a.txt", Op := 2 } (freshOn (jackDisk [("/r/a.txt", "Qm1")]))
    ((freshOn (jackDisk [("/r/a.txt", "Qm1")])).called (.Read "/r/a.txt" "jack" "/r"))
    "Qm1" none (by decide) (by decide) (by decide) (by decide) (by decide)

/-- C2 as amended.  A write event (write bit set, create bit not set) on a
path other than the backing file of the store, for which `Read` returns a hash
(the empty one when the bucket of the handle holds none) without error, so the
store opens during the event, and `Add` returns another one: the calls made
are, in this order, the `Read`, the `Add`, the `Write` of the pair of path and
new hash, the `Pin` of the new hash, `PrintDB`, the `Read` of the hash recorded
for the backing file (the digest step), and `Publish`; `Resolve` follows unless
the publish call failed.  The disk after the event is the disk after that
`Write`. -/
theorem write_event_new_hash_propagated (env : Env) (id handle root : String)
    (event : fsnotify.Event) (s s1 : St) (curHash : String)
    (hcreate : event.Op &&& fsnotify.Create ≠ fsnotify.Create)
    (hwrite : event.Op &&& fsnotify.Write = fsnotify.Write)
    (hname : event.Name ≠ path.Join root boltDB)
    (hread : Read env event.Name handle root s = .ok (curHash, none) s1)
    (hdiff : (env.Add (osOpen env event.Name).1).1 ≠ curHash) :
    ∃ dbHash rest,
      (onEvent env id handle root event s).state.trace =
        s.trace ++ [.Read event.Name handle root, .Add (osOpen env event.Name).1,
          .Write event.Name handle root (env.Add (osOpen env event.Name).1).1,
          .Pin (env.Add (osOpen env event.Name).1).1,
          .PrintDB handle root,
          .Read (path.Join root boltDB) handle root,
          .Publish "" dbHash] ++ rest ∧
      (rest = [] ∨ rest = [.Resolve id]) ∧
      (onEvent env id handle root event s).state.disk =
        diskAfterWrite s.disk event.Name handle root (env.Add (osOpen env event.Name).1).1 := by
  obtain ⟨hs1, hcase⟩ := Read_ok_inv env _ _ _ _ _ _ _ hread
  rcases hcase with ⟨e, _, _, he⟩ | ⟨hopen, _, b, hb, _⟩
  · simp at he
  obtain ⟨b1, hb1⟩ := txBucket_diskAfterWrite s.disk event.Name handle root
    (env.Add (osOpen env event.Name).1).1 b hb
  have hb2 : txBucket (diskGet (diskAfterWrite
      ((((s1.logIf none).logIf (osOpen env event.Name).2).called
        (.Add (osOpen env event.Name).1)).logIf (env.Add (osOpen env event.Name).1).2).disk
      event.Name handle root (env.Add (osOpen env event.Name).1).1)
      (path.Join root boltDB)) handle = some b1 := by
    simpa [hs1] using hb1
  unfold onEvent
  simp only [hcreate, hwrite, hname, if_true, if_false, ne_eq, not_false_eq_true,
    Proc.bind_apply]
  rw [Proc.bind_ok _ _ _ _ _ hread]
  simp only [Proc.bind_apply, logIfError_eq, Proc.bind, shell_Add_eq, hdiff, not_false_eq_true, if_true]
  rw [recordAndPublish_eq env id handle root _ _ _ b1 hopen hb2]
  refine ⟨bucketGet b1 (path.Join root boltDB), ?_⟩
  cases hp : env.Publish "" (bucketGet b1 (path.Join root boltDB)) with
  | some e =>
    refine ⟨[], ?_, Or.inl rfl, ?_⟩ <;> simp [Outcome.state, stAtPublish, hs1]
  | none =>
    cases hr : (env.Resolve id).2 with
    | some e =>
      refine ⟨[.Resolve id], ?_, Or.inr rfl, ?_⟩ <;> simp [Outcome.state, stAtPublish, hs1]
    | none =>
      refine ⟨[.Resolve id], ?_, Or.inr rfl, ?_⟩ <;> simp [Outcome.state, stAtPublish, hs1]

/-- C2 (change propagation), at a store that does not open.  `/r/a.txt` is
stored with `Qm1`, `Add` now returns `Qm2`, and `bolt.Open` fails.  The write
event calls `Write` (which updates nothing), `Pin`, `PrintDB` and the `Read` of
the hash recorded for the backing file, whose error goes to `log.Fatal`: no
`Publish` call is made. -/
theorem write_event_closed_store_no_publish :
    onEvent (closedStoreEnv "Qm2" "X") "X" "jack" "/r"
        { Name := "/r/a.txt", Op := fsnotify.Write }
        (freshOn (jackDisk [("/r/a.txt", "Qm1")])) =
      .fatal { disk := jackDisk [("/r/a.txt", "Qm1")],
               trace := [.Read "/r/a.txt" "jack" "/r", .Add (some "/r/a.txt"),
                 .Write "/r/a.txt" "jack" "/r" "Qm2", .Pin "Qm2", .PrintDB "jack" "/r",
                 .Read "/r/cabinet.db" "jack" "/r"],
               log := ["error: open cabinet.db: permission denied",
                 "open cabinet.db: permission denied"] } := by
  decide

/-- Witness for C2 as amended: `/r/a.txt` is stored with `Qm1` and `Add` now returns
`Qm2`. -/
theorem write_event_new_hash_propagated_witness :
    ∃ dbHash rest,
      (onEvent (calmEnv "Qm2" "X" (fun _ => false)) "X" "jack" "/r"
        { Name := "/r/a.txt", Op := 2 }
        (freshOn (jackDisk [("/r/a.txt", "Qm1")]))).state.trace =
        [] ++ [.Read "/r/a.txt" "jack" "/r", .Add (some "/r/a.txt"),
          .Write "/r/a.txt" "jack" "/r" "Qm2", .Pin "Qm2", .PrintDB "jack" "/r",
          .Read (path.Join "/r" boltDB) "jack" "/r", .Publish "" dbHash] ++ rest ∧
      (rest = [] ∨ rest = [.Resolve "X"]) ∧
      (onEvent (calmEnv "Qm2" "X" (fun _ => false)) "X" "jack" "/r"
        { Name := "/r/a.txt", Op := 2 }
        (freshOn (jackDisk [("/r/a.txt", "Qm1")]))).state.disk =
        diskAfterWrite (jackDisk [("/r/a.txt", "Qm1")]) "/r/a.txt" "jack" "/r" "Qm2" :=
  write_event_new_hash_propagated (calmEnv "Qm2" "X" (fun _ => false)) "X" "jack" "/r"
    { Name := "/r/a.txt", Op := 2 } (freshOn (jackDisk [("/r/a.txt", "Qm1")]))
    ((freshOn (jackDisk [("/r/a.txt", "Qm1")])).called (.Read "/r/a.txt" "jack" "/r"))
    "Qm1" (by decide) (by decide) (by decide) (by decide) (by decide)

/-! ## The store: round trip and read miss -/

/-- After a `Write` with a handle and a key that are not blank and a key and
a value within the limits of bolt, the bucket of the handle is there and
holds the value under the key. -/
theorem diskAfterWrite_get (d : Disk) (loc handle root mhash : String)
    (hh : handle ≠ "") (hl : loc ≠ "") (hk : loc.utf8ByteSize ≤ MaxKeySize)
    (hv : mhash.utf8ByteSize ≤ MaxValueSize) :
    ∃ b1, txBucket (diskGet (diskAfterWrite d loc handle root mhash) (path.Join root boltDB))
        handle = some b1 ∧ bucketGet b1 loc = mhash := by
  unfold diskAfterWrite
  rcases writeTx_cases loc handle mhash (diskGet d (path.Join root boltDB)) with
    ⟨hok, _⟩ | ⟨_, hbad⟩
  · rw [hok]
    refine ⟨kvPut loc mhash
      ((kvGet handle (diskGet d (path.Join root boltDB))).getD []), ?_, ?_⟩
    · simp [diskGet_kvPut, txBucket, hh, kvGet_kvPut_same]
    · simp [bucketGet, kvGet_kvPut_same]
  · rcases hbad with h | h | h | h
    · exact absurd h hh
    · exact absurd h hl
    · exact absurd hk (Nat.not_le_of_gt h)
    · exact absurd hv (Nat.not_le_of_gt h)

/-- Round trip where the put succeeds: with a store that opens, a handle and a
key that are not blank, and key and value within the limits of bolt, `Write`
returns no error and the `Read` that follows returns the value. -/
theorem Write_Read_round_trip (env : Env) (loc handle root mhash : String) (s : St)
    (hopen : env.boltOpen (path.Join root boltDB) = none)
    (hh : handle ≠ "") (hl : loc ≠ "") (hk : loc.utf8ByteSize ≤ MaxKeySize)
    (hv : mhash.utf8ByteSize ≤ MaxValueSize) :
    ∃ s1 s2, Write env loc handle root mhash s = .ok none s1 ∧
      Read env loc handle root s1 = .ok (mhash, none) s2 := by
  obtain ⟨b1, hb1, hget⟩ := diskAfterWrite_get s.disk loc handle root mhash hh hl hk hv
  have h1 : Write env loc handle root mhash s = .ok none
      ((s.called (.Write loc handle root mhash)).withDisk
        (diskAfterWrite s.disk loc handle root mhash)) := by
    rw [Write_eq, hopen]
  have h2 : Read env loc handle root ((s.called (.Write loc handle root mhash)).withDisk
        (diskAfterWrite s.disk loc handle root mhash)) = .ok (mhash, none)
      (((s.called (.Write loc handle root mhash)).withDisk
        (diskAfterWrite s.disk loc handle root mhash)).called (.Read loc handle root)) := by
    rw [Read_eq, hopen]
    simp only [St.withDisk_disk, hb1, hget]
  exact ⟨_, _, h1, h2⟩

/-- C3 (store round trip), evaluated at a blank key.  On a store that opens
and holds the bucket `jack`, `Write("", "jack", "/r", "Qm1")` returns no
error and leaves the disk as it was (`bucket.Put` fails with
`ErrKeyRequired`, the transaction is rolled back, the result of `db.Update`
is dropped), and the `Read("", "jack", "/r")` that follows returns the empty
string, not `Qm1`. -/
theorem Write_blank_key_swallowed :
    Write (calmEnv "Qm1" "X" (fun _ => false)) "" "jack" "/r" "Qm1"
        (freshOn (jackDisk [("/r/a.txt", "Qm0")])) =
      .ok none { disk := jackDisk [("/r/a.txt", "Qm0")],
                 trace := [.Write "" "jack" "/r" "Qm1"], log := [] } ∧
    Read (calmEnv "Qm1" "X" (fun _ => false)) "" "jack" "/r"
        { disk := jackDisk [("/r/a.txt", "Qm0")],
          trace := [.Write "" "jack" "/r" "Qm1"], log := [] } =
      .ok ("", none) { disk := jackDisk [("/r/a.txt", "Qm0")],
                       trace := [.Write "" "jack" "/r" "Qm1", .Read "" "jack" "/r"],
                       log := [] } := by
  constructor <;> decide

/-- Read miss on a key: when the store opens and the bucket of the handle is
there without the key, `Read` returns the empty string and no error. -/
theorem Read_missing_key (env : Env) (id handle root : String) (s : St) (b : Bucket)
    (hopen : env.boltOpen (path.Join root boltDB) = none)
    (hb : txBucket (diskGet s.disk (path.Join root boltDB)) handle = some b)
    (hmiss : kvGet id b = none) :
    Read env id handle root s = .ok ("", none) (s.called (.Read id handle root)) := by
  rw [Read_eq, hopen]
  simp [hb, bucketGet, hmiss]

/-- Read miss on a bucket: when the store opens and the bucket of the handle
is not there, `Read` dies of the nil dereference. -/
theorem Read_missing_bucket (env : Env) (id handle root : String) (s : St)
    (hopen : env.boltOpen (path.Join root boltDB) = none)
    (hb : txBucket (diskGet s.disk (path.Join root boltDB)) handle = none) :
    Read env id handle root s = .panic (s.called (.Read id handle root)) := by
  rw [Read_eq, hopen]
  simp [hb]

/-- C6 (read miss), evaluated where the bucket is missing.  On a disk whose
store holds no bucket, `Read("NODELIST", "jack", "/r")` does not return: it
dies of the nil dereference.  The program reaches this state by itself: after
`Upload` on a root directory without entries (nothing is written, so the
bucket is never created), `UpdateNodeList` dies in its `Read`. -/
theorem Read_without_bucket_panics :
    Read (calmEnv "Qm1" "X" (fun loc => loc == "/r")) nodeList "jack" "/r" (freshOn []) =
      .panic { disk := [], trace := [.Read nodeList "jack" "/r"], log := [] } ∧
    (Upload (calmEnv "Qm1" "X" (fun loc => loc == "/r")) "jack" "/r" (.dir "r" none []) >>=
      fun _ => UpdateNodeList (calmEnv "Qm1" "X" (fun loc => loc == "/r")) "jack" "/r")
        (freshOn []) =
      .panic { disk := [], trace := [.ID, .Read nodeList "jack" "/r"], log := [] } := by
  constructor <;> decide

/-! ## The node list -/

theorem utf8ByteSize_append (a b : String) :
    (a ++ b).utf8ByteSize = a.utf8ByteSize + b.utf8ByteSize := by
  obtain ⟨a⟩ := a
  obtain ⟨b⟩ := b
  show String.utf8ByteSize ⟨a ++ b⟩ = _
  simp [String.utf8ByteSize_mk]

theorem data_join_comma (x nodes : String) :
    (x ++ "," ++ nodes).data = x.data ++ ',' :: nodes.data := by
  simp [String.data_append]

theorem splitChars_append_sep (sep : Char) (x t : List Char) (hx : sep ∉ x) :
    strings.splitChars sep (x ++ sep :: t) = x :: strings.splitChars sep t := by
  induction x with
  | nil => simp [strings.splitChars]
  | cons c r ih =>
    have hc : c ≠ sep := fun h => hx (by simp [h])
    have hr : sep ∉ r := fun h => hx (by simp [h])
    simp [strings.splitChars, hc, ih hr]

theorem splitChars_no_sep (sep : Char) (x : List Char) (hx : sep ∉ x) :
    strings.splitChars sep x = [x] := by
  induction x with
  | nil => simp [strings.splitChars]
  | cons c r ih =>
    have hc : c ≠ sep := fun h => hx (by simp [h])
    have hr : sep ∉ r := fun h => hx (by simp [h])
    simp [strings.splitChars, hc, ih hr]

theorem Split_join_comma (x nodes : String) (hx : ',' ∉ x.data) :
    strings.Split (x ++ "," ++ nodes) ',' = x :: strings.Split nodes ',' := by
  unfold strings.Split
  rw [data_join_comma, splitChars_append_sep _ _ _ hx]
  simp

theorem Split_no_comma (x : String) (hx : ',' ∉ x.data) : strings.Split x ',' = [x] := by
  unfold strings.Split
  rw [splitChars_no_sep _ _ hx]
  simp

theorem UpdateNodeList_eq (env : Env) (handle root : String) (s : St) :
    UpdateNodeList env handle root s =
      match env.ID.2 with
      | some e => .fatal ((s.called .ID).logged e)
      | none =>
        match env.boltOpen (path.Join root boltDB) with
        | some e => .ok (some e) ((s.called .ID).called (.Read nodeList handle root))
        | none =>
          match txBucket (diskGet s.disk (path.Join root boltDB)) handle with
          | none => .panic ((s.called .ID).called (.Read nodeList handle root))
          | some b =>
            if bucketGet b nodeList ≠ "" then
              if env.ID.1 ∈ strings.Split (bucketGet b nodeList) ',' then
                .ok none ((s.called .ID).called (.Read nodeList handle root))
              else
                .ok none
                  ((((s.called .ID).called (.Read nodeList handle root)).called
                    (.Write nodeList handle root (env.ID.1 ++ "," ++ bucketGet b nodeList))).withDisk
                    (diskAfterWrite s.disk nodeList handle root
                      (env.ID.1 ++ "," ++ bucketGet b nodeList)))
            else
              .ok none
                ((((s.called .ID).called (.Read nodeList handle root)).called
                  (.Write nodeList handle root env.ID.1)).withDisk
                  (diskAfterWrite s.disk nodeList handle root env.ID.1)) := by
  unfold UpdateNodeList
  simp only [Proc.bind_apply, Proc.bind, shell_ID_eq]
  cases hid : env.ID.2 with
  | some e => simp [fatalIfError_some]
  | none =>
    simp only [fatalIfError_none, Read_eq]
    cases hopen : env.boltOpen (path.Join root boltDB) with
    | some e => simp
    | none =>
      simp only [St.called_disk]
      cases hb : txBucket (diskGet s.disk (path.Join root boltDB)) handle with
      | none => simp
      | some b =>
        have hany : ((strings.Split (bucketGet b nodeList) ',').any
            (fun node => node == env.ID.1) = false) ↔
            env.ID.1 ∉ strings.Split (bucketGet b nodeList) ',' := by
          rw [Bool.eq_false_iff, ne_eq, List.any_eq_true]
          constructor
          · intro h hin
            exact h ⟨_, hin, by simp⟩
          · rintro h ⟨x, hx, hxe⟩
            have : x = env.ID.1 := by simpa using hxe
            exact h (this ▸ hx)
        simp only [hany]
        by_cases hn : bucketGet b nodeList = ""
        · simp [hn, Proc.bind, Write_eq, hopen]
        · by_cases hin : env.ID.1 ∈ strings.Split (bucketGet b nodeList) ','
          · simp [hn, hin, Proc.bind]
          · simp [hn, hin, Proc.bind, Write_eq, hopen]

theorem nodeList_key_ok : nodeList ≠ "" ∧ nodeList.utf8ByteSize ≤ MaxKeySize := by
  constructor <;> decide

/-- The node list after `UpdateNodeList`, where the bucket is there.  When the
identity call answers `x`, the `Read` of `NODELIST` returns `nodes` without
error, and the joined list fits the value limit of bolt, `UpdateNodeList`
returns without error and the `NODELIST` read back afterwards is: `x` when
`nodes` is empty; `nodes` when it is not empty and `x` is one of its
comma-separated elements, and then the run made no `Write` and left the disk
as it was; `x`, a comma, `nodes` otherwise. -/
theorem UpdateNodeList_result (env : Env) (handle root : String) (s s1 : St)
    (x nodes : String) (hid : env.ID = (x, none))
    (hread : Read env nodeList handle root s = .ok (nodes, none) s1)
    (hsize : (x ++ "," ++ nodes).utf8ByteSize ≤ MaxValueSize) :
    ∃ s2 s3, UpdateNodeList env handle root s = .ok none s2 ∧
      Read env nodeList handle root s2 =
        .ok (if nodes = "" then x else if x ∈ strings.Split nodes ',' then nodes
             else x ++ "," ++ nodes, none) s3 ∧
      (nodes ≠ "" → x ∈ strings.Split nodes ',' →
        s2.disk = s.disk ∧ s2.trace = s.trace ++ [.ID, .Read nodeList handle root]) := by
  obtain ⟨_, hcase⟩ := Read_ok_inv env _ _ _ _ _ _ _ hread
  rcases hcase with ⟨e, _, _, he⟩ | ⟨hopen, _, b, hb, hnodes⟩
  · simp at he
  obtain ⟨hh, _⟩ := txBucket_some_ne _ _ _ hb
  have hid1 : env.ID.1 = x := by rw [hid]
  have hid2 : env.ID.2 = none := by rw [hid]
  have hx : x.utf8ByteSize ≤ MaxValueSize := by
    rw [utf8ByteSize_append, utf8ByteSize_append] at hsize
    omega
  rw [UpdateNodeList_eq, hid2, hid1]
  simp only [hopen, hb, ← hnodes]
  by_cases hn : nodes = ""
  · obtain ⟨b1, hb1, hget⟩ := diskAfterWrite_get s.disk nodeList handle root x hh
      nodeList_key_ok.1 nodeList_key_ok.2 hx
    have h2 : Read env nodeList handle root
        ((((s.called .ID).called (.Read nodeList handle root)).called
          (.Write nodeList handle root x)).withDisk
          (diskAfterWrite s.disk nodeList handle root x)) =
        .ok (if nodes = "" then x else if x ∈ strings.Split nodes ',' then nodes
             else x ++ "," ++ nodes, none)
          (((((s.called .ID).called (.Read nodeList handle root)).called
          (.Write nodeList handle root x)).withDisk
          (diskAfterWrite s.disk nodeList handle root x)).called
            (.Read nodeList handle root)) := by
      rw [Read_eq, hopen]
      simp only [St.withDisk_disk, hb1, hget, hn, if_true]
    refine ⟨_, _, ?_, h2, ?_⟩
    · simp only [hn, ne_eq, not_true_eq_false, if_false]
    · intro h
      exact absurd hn h
  · by_cases hin : x ∈ strings.Split nodes ','
    · have h2 : Read env nodeList handle root
          ((s.called .ID).called (.Read nodeList handle root)) =
          .ok (if nodes = "" then x else if x ∈ strings.Split nodes ',' then nodes
               else x ++ "," ++ nodes, none)
            (((s.called .ID).called (.Read nodeList handle root)).called
              (.Read nodeList handle root)) := by
        rw [Read_eq, hopen]
        simp only [St.called_disk, hb, ← hnodes, hn, hin, if_true, if_false]
      refine ⟨_, _, ?_, h2, ?_⟩
      · simp only [hn, hin, ne_eq, not_false_eq_true, if_true]
      · intro _ _
        simp
    · obtain ⟨b1, hb1, hget⟩ := diskAfterWrite_get s.disk nodeList handle root
        (x ++ "," ++ nodes) hh nodeList_key_ok.1 nodeList_key_ok.2 hsize
      have h2 : Read env nodeList handle root
          ((((s.called .ID).called (.Read nodeList handle root)).called
            (.Write nodeList handle root (x ++ "," ++ nodes))).withDisk
            (diskAfterWrite s.disk nodeList handle root (x ++ "," ++ nodes))) =
          .ok (if nodes = "" then x else if x ∈ strings.Split nodes ',' then nodes
               else x ++ "," ++ nodes, none)
            (((((s.called .ID).called (.Read nodeList handle root)).called
            (.Write nodeList handle root (x ++ "," ++ nodes))).withDisk
            (diskAfterWrite s.disk nodeList handle root (x ++ "," ++ nodes))).called
              (.Read nodeList handle root)) := by
        rw [Read_eq, hopen]
        simp only [St.withDisk_disk, hb1, hget, hn, hin, if_false]
      refine ⟨_, _, ?_, h2, ?_⟩
      · simp only [hn, hin, ne_eq, not_false_eq_true, if_true, if_false]
      · intro _ h
        exact absurd h hin

/-- C4 (node-list bootstrap result), evaluated on a store without the bucket
of the handle.  Nothing is stored under `NODELIST` and the identity is `abc`:
`UpdateNodeList` does not write `abc`, it dies of the nil dereference in its
`Read`, and the disk is left without a node list. -/
theorem UpdateNodeList_fresh_store_panics :
    UpdateNodeList (calmEnv "Qm1" "abc" (fun _ => false)) "jack" "/r" (freshOn []) =
      .panic { disk := [], trace := [.ID, .Read nodeList "jack" "/r"], log := [] } := by
  decide

/-- The three instances of the node-list result where the bucket is there:
stored `Y` with identity `X` gives `X,Y`; stored `X,Y` with identity `X` stays
`X,Y` without a write; an empty bucket with identity `abc` gives `abc`. -/
theorem UpdateNodeList_result_witness :
    (∃ s2 s3, UpdateNodeList (calmEnv "Qm1" "X" (fun _ => false)) "jack" "/r"
        (freshOn (jackDisk [(nodeList, "Y")])) = .ok none s2 ∧
      Read (calmEnv "Qm1" "X" (fun _ => false)) nodeList "jack" "/r" s2 =
        .ok ("X,Y", none) s3 ∧
      ("Y" ≠ "" → "X" ∈ strings.Split "Y" ',' →
        s2.disk = jackDisk [(nodeList, "Y")] ∧
        s2.trace = [] ++ [.ID, .Read nodeList "jack" "/r"])) ∧
    (∃ s2 s3, UpdateNodeList (calmEnv "Qm1" "X" (fun _ => false)) "jack" "/r"
        (freshOn (jackDisk [(nodeList, "X,Y")])) = .ok none s2 ∧
      Read (calmEnv "Qm1" "X" (fun _ => false)) nodeList "jack" "/r" s2 =
        .ok ("X,Y", none) s3 ∧
      ("X,Y" ≠ "" → "X" ∈ strings.Split "X,Y" ',' →
        s2.disk = jackDisk [(nodeList, "X,Y")] ∧
        s2.trace = [] ++ [.ID, .Read nodeList "jack" "/r"])) ∧
    (∃ s2 s3, UpdateNodeList (calmEnv "Qm1" "abc" (fun _ => false)) "jack" "/r"
        (freshOn (jackDisk [])) = .ok none s2 ∧
      Read (calmEnv "Qm1" "abc" (fun _ => false)) nodeList "jack" "/r" s2 =
        .ok ("abc", none) s3 ∧
      ("" ≠ "" → "abc" ∈ strings.Split "" ',' →
        s2.disk = jackDisk [] ∧ s2.trace = [] ++ [.ID, .Read nodeList "jack" "/r"])) :=
  ⟨UpdateNodeList_result (calmEnv "Qm1" "X" (fun _ => false)) "jack" "/r"
      (freshOn (jackDisk [(nodeList, "Y")]))
      ((freshOn (jackDisk [(nodeList, "Y")])).called (.Read nodeList "jack" "/r"))
      "X" "Y" rfl (by decide) (by decide),
   UpdateNodeList_result (calmEnv "Qm1" "X" (fun _ => false)) "jack" "/r"
      (freshOn (jackDisk [(nodeList, "X,Y")]))
      ((freshOn (jackDisk [(nodeList, "X,Y")])).called (.Read nodeList "jack" "/r"))
      "X" "X,Y" rfl (by decide) (by decide),
   UpdateNodeList_result (calmEnv "Qm1" "abc" (fun _ => false)) "jack" "/r"
      (freshOn (jackDisk []))
      ((freshOn (jackDisk [])).called (.Read nodeList "jack" "/r"))
      "abc" "" rfl (by decide) (by decide)⟩

/-- Writing the same pair twice is the same as writing it once. -/
theorem diskAfterWrite_idem (d : Disk) (loc handle root mhash : String) :
    diskAfterWrite (diskAfterWrite d loc handle root mhash) loc handle root mhash =
      diskAfterWrite d loc handle root mhash := by
  rcases writeTx_cases loc handle mhash (diskGet d (path.Join root boltDB)) with
    ⟨hok, hh, hl, hk, hv⟩ | ⟨⟨e, herr⟩, _⟩
  · have h1 : diskAfterWrite d loc handle root mhash =
        kvPut (path.Join root boltDB)
          (kvPut handle (kvPut loc mhash
            ((kvGet handle (diskGet d (path.Join root boltDB))).getD []))
            (diskGet d (path.Join root boltDB))) d := by
      unfold diskAfterWrite
      rw [hok]
    rw [h1]
    unfold diskAfterWrite
    rw [diskGet_kvPut]
    rcases writeTx_cases loc handle mhash
        (kvPut handle (kvPut loc mhash
          ((kvGet handle (diskGet d (path.Join root boltDB))).getD []))
          (diskGet d (path.Join root boltDB))) with ⟨hok2, _⟩ | ⟨_, hbad⟩
    · rw [hok2]
      simp only [kvGet_kvPut_same, Option.getD_some, kvPut_kvPut]
    · rcases hbad with h | h | h | h
      · exact absurd h hh
      · exact absurd h hl
      · exact absurd hk (Nat.not_le_of_gt h)
      · exact absurd hv (Nat.not_le_of_gt h)
  · have h1 : diskAfterWrite d loc handle root mhash = d := by
      unfold diskAfterWrite
      rw [herr]
    rw [h1, h1]

/-- A `Write` changes the disk only if its transaction commits, and then the
bucket of the handle holds the value under the key. -/
theorem diskAfterWrite_cases (d : Disk) (loc handle root mhash : String) :
    diskAfterWrite d loc handle root mhash = d ∨
    ∃ b1, txBucket (diskGet (diskAfterWrite d loc handle root mhash) (path.Join root boltDB))
        handle = some b1 ∧ bucketGet b1 loc = mhash := by
  rcases writeTx_cases loc handle mhash (diskGet d (path.Join root boltDB)) with
    ⟨_, hh, hl, hk, hv⟩ | ⟨⟨e, herr⟩, _⟩
  · exact Or.inr (diskAfterWrite_get d loc handle root mhash hh hl hk hv)
  · left
    unfold diskAfterWrite
    rw [herr]

theorem join_comma_ne_empty (x nodes : String) : x ++ "," ++ nodes ≠ "" := by
  intro h
  have h2 := congrArg String.data h
  rw [data_join_comma] at h2
  simp at h2

/-- C5 (node-list dedup), at an identity with a comma.  With the stored list
`c` and the identity `a,b`, the first run stores `a,b,c` and the second run
stores `a,b,a,b,c`: the second run changes `NODELIST`. -/
theorem UpdateNodeList_twice_comma_identity :
    (UpdateNodeList (calmEnv "Qm1" "a,b" (fun _ => false)) "jack" "/r"
        (freshOn (jackDisk [(nodeList, "c")]))).state.disk = jackDisk [(nodeList, "a,b,c")] ∧
    ((UpdateNodeList (calmEnv "Qm1" "a,b" (fun _ => false)) "jack" "/r" >>= fun _ =>
        UpdateNodeList (calmEnv "Qm1" "a,b" (fun _ => false)) "jack" "/r")
        (freshOn (jackDisk [(nodeList, "c")]))).state.disk =
      jackDisk [(nodeList, "a,b,a,b,c")] := by
  constructor <;> decide

/-- C5 as amended.  For an identity without a comma: when a run of
`UpdateNodeList` returns, a second run with the same identity returns the
same, and leaves the disk, hence `NODELIST`, exactly as the first run left
it. -/
theorem UpdateNodeList_twice (env : Env) (handle root : String) (s s1 : St) (err : GoError)
    (hcomma : ',' ∉ env.ID.1.data)
    (hfirst : UpdateNodeList env handle root s = .ok err s1) :
    ∃ s2, UpdateNodeList env handle root s1 = .ok err s2 ∧ s2.disk = s1.disk := by
  rw [UpdateNodeList_eq] at hfirst
  cases hid : env.ID.2 with
  | some e => simp [hid] at hfirst
  | none =>
    simp only [hid] at hfirst
    cases hopen : env.boltOpen (path.Join root boltDB) with
    | some e =>
      simp only [hopen, Outcome.ok.injEq] at hfirst
      obtain ⟨rfl, hs1⟩ := hfirst
      refine ⟨(s1.called .ID).called (.Read nodeList handle root), ?_, by simp⟩
      rw [UpdateNodeList_eq, hid]
      simp only [hopen]
    | none =>
      simp only [hopen] at hfirst
      cases hb : txBucket (diskGet s.disk (path.Join root boltDB)) handle with
      | none => simp [hb] at hfirst
      | some b =>
        simp only [hb] at hfirst
        by_cases hn : bucketGet b nodeList = ""
        · -- nothing stored: the identity is written
          simp only [hn, ne_eq, not_true_eq_false, if_false, Outcome.ok.injEq] at hfirst
          obtain ⟨rfl, hs1⟩ := hfirst
          have hd1 : s1.disk = diskAfterWrite s.disk nodeList handle root env.ID.1 := by
            rw [← hs1]
            rfl
          rcases diskAfterWrite_cases s.disk nodeList handle root env.ID.1 with
            hsame | ⟨b1, hb1, hget⟩
          · -- the transaction was rolled back: the second run does the same
            refine ⟨(((s1.called .ID).called (.Read nodeList handle root)).called
              (.Write nodeList handle root env.ID.1)).withDisk
              (diskAfterWrite s1.disk nodeList handle root env.ID.1), ?_, ?_⟩
            · rw [UpdateNodeList_eq, hid]
              simp only [hopen, hd1, hsame, hb, hn, ne_eq, not_true_eq_false, if_false]
            · simp only [St.withDisk_disk, hd1, diskAfterWrite_idem]
          · by_cases hx : env.ID.1 = ""
            · refine ⟨(((s1.called .ID).called (.Read nodeList handle root)).called
                (.Write nodeList handle root env.ID.1)).withDisk
                (diskAfterWrite s1.disk nodeList handle root env.ID.1), ?_, ?_⟩
              · rw [UpdateNodeList_eq, hid]
                rw [hx] at hb1 hget
                simp only [hopen, hd1, hx, hb1, hget, ne_eq, not_true_eq_false, if_false]
              · simp only [St.withDisk_disk, hd1, diskAfterWrite_idem]
            · refine ⟨(s1.called .ID).called (.Read nodeList handle root), ?_, by simp⟩
              rw [UpdateNodeList_eq, hid]
              simp only [hopen, hd1, hb1, hget, hx, ne_eq, not_false_eq_true, if_true,
                Split_no_comma _ hcomma, List.mem_singleton]
        · by_cases hin : env.ID.1 ∈ strings.Split (bucketGet b nodeList) ','
          · -- already in the list: no write, and none the second time
            simp only [hn, hin, ne_eq, not_false_eq_true, if_true, Outcome.ok.injEq] at hfirst
            obtain ⟨rfl, hs1⟩ := hfirst
            have hd1 : s1.disk = s.disk := by
              rw [← hs1]
              rfl
            refine ⟨(s1.called .ID).called (.Read nodeList handle root), ?_, by simp⟩
            rw [UpdateNodeList_eq, hid]
            simp only [hopen, hd1, hb, hn, hin, ne_eq, not_false_eq_true, if_true]
          · simp only [hn, hin, ne_eq, not_false_eq_true, if_true, if_false,
              Outcome.ok.injEq] at hfirst
            obtain ⟨rfl, hs1⟩ := hfirst
            have hd1 : s1.disk = diskAfterWrite s.disk nodeList handle root
                (env.ID.1 ++ "," ++ bucketGet b nodeList) := by
              rw [← hs1]
              rfl
            rcases diskAfterWrite_cases s.disk nodeList handle root
                (env.ID.1 ++ "," ++ bucketGet b nodeList) with hsame | ⟨b1, hb1, hget⟩
            · refine ⟨(((s1.called .ID).called (.Read nodeList handle root)).called
                (.Write nodeList handle root (env.ID.1 ++ "," ++ bucketGet b nodeList))).withDisk
                (diskAfterWrite s1.disk nodeList handle root
                  (env.ID.1 ++ "," ++ bucketGet b nodeList)), ?_, ?_⟩
              · rw [UpdateNodeList_eq, hid]
                simp only [hopen, hd1, hsame, hb, hn, hin, ne_eq, not_false_eq_true, if_true,
                  if_false]
              · simp only [St.withDisk_disk, hd1, diskAfterWrite_idem]
            · refine ⟨(s1.called .ID).called (.Read nodeList handle root), ?_, by simp⟩
              rw [UpdateNodeList_eq, hid]
              simp only [hopen, hd1, hb1, hget, join_comma_ne_empty, ne_eq,
                not_false_eq_true, if_true, Split_join_comma _ _ hcomma, List.mem_cons,
                true_or]

/-- Witness for C5 as amended: the stored list `Y` and the identity `X`; the
first run leaves `X,Y`, and so does the second. -/
theorem UpdateNodeList_twice_witness :
    ∃ s2, UpdateNodeList (calmEnv "Qm1" "X" (fun _ => false)) "jack" "/r"
        { disk := jackDisk [(nodeList, "X,Y")],
          trace := [.ID, .Read nodeList "jack" "/r", .Write nodeList "jack" "/r" "X,Y"],
          log := [] } = .ok none s2 ∧
      s2.disk = jackDisk [(nodeList, "X,Y")] :=
  UpdateNodeList_twice (calmEnv "Qm1" "X" (fun _ => false)) "jack" "/r"
    (freshOn (jackDisk [(nodeList, "Y")]))
    { disk := jackDisk [(nodeList, "X,Y")],
      trace := [.ID, .Read nodeList "jack" "/r", .Write nodeList "jack" "/r" "X,Y"],
      log := [] }
    none (by decide) (by decide)

/-! ## `Upload` -/

theorem Write_written (env : Env) (loc handle root mhash : String) (s : St) :
    Write env loc handle root mhash s =
      .ok (env.boltOpen (path.Join root boltDB)) (s.written env loc handle root mhash) := by
  rw [Write_eq]
  unfold St.written
  cases env.boltOpen (path.Join root boltDB) <;> rfl

@[simp] theorem St.written_trace (s : St) (env : Env) (loc handle root mhash : String) :
    (s.written env loc handle root mhash).trace = s.trace ++ [.Write loc handle root mhash] := by
  unfold St.written
  cases env.boltOpen (path.Join root boltDB) <;> simp

theorem uploadFn_eq (env : Env) (handle root loc : String) (s : St) :
    uploadFn env handle root loc s =
      match env.Stat loc with
      | none => .panic s
      | some true => .ok none s
      | some false =>
        match env.Open loc with
        | some e => .ok (some e) s
        | none =>
          match (env.Add (some loc)).2 with
          | some e => .ok (some e) (s.called (.Add (some loc)))
          | none => .ok (env.Pin (env.Add (some loc)).1)
              (((s.called (.Add (some loc))).written env loc handle root
                (env.Add (some loc)).1).called (.Pin (env.Add (some loc)).1)) := by
  unfold uploadFn
  cases hs : env.Stat loc with
  | none => simp [nilPanic]
  | some d =>
    cases d with
    | true => simp
    | false =>
      cases ho : env.Open loc with
      | some e => simp [osOpen, ho]
      | none =>
        cases ha : (env.Add (some loc)).2 with
        | some e => simp [osOpen, ho, Proc.bind, shell_Add_eq, ha]
        | none =>
          simp only [osOpen, ho, Option.isSome_none, Bool.false_eq_true, if_false,
            Proc.bind_apply, Proc.bind, shell_Add_eq, ha, Proc.pure_apply, Write_written,
            shell_Pin_eq]
          cases hp : env.Pin (env.Add (some loc)).1 <;> simp [Proc.bind]

theorem walk_dir_eq (fn : String → Proc GoError) (p n : String) (readErr : GoError)
    (entries : List Tree) (s : St) :
    walk fn p (.dir n readErr entries) s =
      Proc.bind (fn p) (fun err1 =>
        if (readErr.isSome || err1.isSome) = true then Proc.pure err1
        else walkEntries fn p entries) s := by
  rw [walk]
  rfl

theorem walkEntries_cons_eq (fn : String → Proc GoError) (p : String) (t : Tree)
    (rest : List Tree) (s : St) :
    walkEntries fn p (t :: rest) s =
      Proc.bind (walk fn (path.Join p t.name) t) (fun err =>
        if err.isSome = true then Proc.pure err else walkEntries fn p rest) s := by
  rw [walkEntries]
  rfl

mutual
/-- A relation between states that is reflexive, transitive and kept by every
call of the callback is kept by the walk. -/
theorem walk_keeps (R : St → St → Prop) (hrefl : ∀ s, R s s)
    (htrans : ∀ a b c, R a b → R b c → R a c) (fn : String → Proc GoError)
    (hfn : ∀ loc s, R s (fn loc s).state) :
    ∀ (t : Tree) (p : String) (s : St), R s (walk fn p t s).state
  | .file _, p, s => by
    rw [walk]
    exact hfn p s
  | .noLstat _ _, p, s => by
    rw [walk]
    exact hfn p s
  | .dir n readErr entries, p, s => by
    rw [walk_dir_eq]
    unfold Proc.bind
    have h1 := hfn p s
    cases hf : fn p s with
    | ok a s1 =>
      rw [hf] at h1
      simp only
      by_cases hc : (readErr.isSome || a.isSome) = true
      · simp only [hc, if_true]
        exact h1
      · simp only [hc, if_false]
        exact htrans _ _ _ h1 (walkEntries_keeps R hrefl htrans fn hfn entries p s1)
    | fatal s1 =>
      rw [hf] at h1
      exact h1
    | panic s1 =>
      rw [hf] at h1
      exact h1
theorem walkEntries_keeps (R : St → St → Prop) (hrefl : ∀ s, R s s)
    (htrans : ∀ a b c, R a b → R b c → R a c) (fn : String → Proc GoError)
    (hfn : ∀ loc s, R s (fn loc s).state) :
    ∀ (ts : List Tree) (p : String) (s : St), R s (walkEntries fn p ts s).state
  | [], p, s => by
    rw [walkEntries]
    exact hrefl s
  | t :: rest, p, s => by
    rw [walkEntries_cons_eq]
    unfold Proc.bind
    have h1 := walk_keeps R hrefl htrans fn hfn t (path.Join p t.name) s
    cases hf : walk fn (path.Join p t.name) t s with
    | ok a s1 =>
      rw [hf] at h1
      simp only
      by_cases hc : a.isSome = true
      · simp only [hc, if_true]
        exact h1
      · simp only [hc, if_false]
        exact htrans _ _ _ h1 (walkEntries_keeps R hrefl htrans fn hfn rest p s1)
    | fatal s1 =>
      rw [hf] at h1
      exact h1
    | panic s1 =>
      rw [hf] at h1
      exact h1
end

theorem HashedThenPinned_nil (env : Env) (handle root : String) :
    HashedThenPinned env handle root [] := by
  intro loc h r m hmem
  simp at hmem

theorem HashedThenPinned_append (env : Env) (handle root : String) (a b : List Call)
    (ha : HashedThenPinned env handle root a) (hb : HashedThenPinned env handle root b) :
    HashedThenPinned env handle root (a ++ b) := by
  intro loc h r m hmem
  rcases List.mem_append.mp hmem with hm | hm
  · obtain ⟨h1, h2, h3, h4, h5, pre, post, hcs⟩ := ha loc h r m hm
    refine ⟨h1, h2, h3, h4, h5, pre, post ++ b, ?_⟩
    rw [hcs]
    simp
  · obtain ⟨h1, h2, h3, h4, h5, pre, post, hcs⟩ := hb loc h r m hm
    refine ⟨h1, h2, h3, h4, h5, a ++ pre, post, ?_⟩
    rw [hcs]
    simp

/-- One call of the callback of `Upload` keeps `HashedThenPinned`. -/
theorem uploadFn_hashed (env : Env) (handle root loc : String) (s : St) :
    ∃ cs, (uploadFn env handle root loc s).state.trace = s.trace ++ cs ∧
      HashedThenPinned env handle root cs := by
  rw [uploadFn_eq]
  cases hs : env.Stat loc with
  | none => exact ⟨[], by simp [Outcome.state], HashedThenPinned_nil _ _ _⟩
  | some d =>
    cases d with
    | true => exact ⟨[], by simp [Outcome.state], HashedThenPinned_nil _ _ _⟩
    | false =>
      cases ho : env.Open loc with
      | some e => exact ⟨[], by simp [Outcome.state], HashedThenPinned_nil _ _ _⟩
      | none =>
        cases ha : (env.Add (some loc)).2 with
        | some e =>
          refine ⟨[.Add (some loc)], by simp [Outcome.state], ?_⟩
          intro l h r m hmem
          simp at hmem
        | none =>
          refine ⟨[.Add (some loc), .Write loc handle root (env.Add (some loc)).1,
            .Pin (env.Add (some loc)).1], by simp [Outcome.state], ?_⟩
          intro l h r m hmem
          simp only [List.mem_cons, List.mem_singleton, Call.Write.injEq, reduceCtorEq,
            false_or, or_false, List.not_mem_nil] at hmem
          obtain ⟨rfl, rfl, rfl, rfl⟩ := hmem
          refine ⟨rfl, rfl, hs, ho, Prod.ext rfl ha, [], [], by simp⟩

/-- Every `Write` that `Upload` makes is for a path that is no directory, was
opened and was hashed without error, carries the hash `Add` returned, and is
followed by the `Pin` of that hash. -/
theorem Upload_hashed (env : Env) (handle root : String) (tree : Tree) (s : St) :
    ∃ cs, (Upload env handle root tree s).state.trace = s.trace ++ cs ∧
      HashedThenPinned env handle root cs := by
  unfold Upload
  refine walk_keeps
    (fun a b => ∃ cs, b.trace = a.trace ++ cs ∧ HashedThenPinned env handle root cs)
    ?_ ?_ (uploadFn env handle root) (uploadFn_hashed env handle root) tree root s
  · intro a
    exact ⟨[], by simp, HashedThenPinned_nil _ _ _⟩
  · rintro a b c ⟨cs1, h1, g1⟩ ⟨cs2, h2, g2⟩
    exact ⟨cs1 ++ cs2, by rw [h2, h1, List.append_assoc],
      HashedThenPinned_append _ _ _ _ _ g1 g2⟩

/-! ## Recording and pinning -/

/-- When the store opens but does not hold the bucket of the handle after the
write (the transaction was rolled back), `recordAndPublish` dies in
`PrintDB`. -/
theorem recordAndPublish_no_bucket (env : Env) (id handle root name newHash : String)
    (s : St) (hopen : env.boltOpen (path.Join root boltDB) = none)
    (hb1 : txBucket (diskGet (diskAfterWrite s.disk name handle root newHash)
      (path.Join root boltDB)) handle = none) :
    recordAndPublish env id handle root name newHash s =
      .panic (((((s.called (.Write name handle root newHash)).withDisk
        (diskAfterWrite s.disk name handle root newHash)).called (.Pin newHash)).logIf
        (env.Pin newHash)).called (.PrintDB handle root)) := by
  unfold recordAndPublish
  simp only [Proc.bind_apply, Proc.bind, Write_eq, hopen, shell_Pin_eq, logIfError_eq,
    PrintDB_eq, St.called_disk, St.withDisk_disk, St.logIf_disk, hb1]

/-- In every case `recordAndPublish` first calls `Write` and `Pin`, and the
disk it ends with is the disk the `Write` left, whatever `Pin` answers. -/
theorem recordAndPublish_write_then_pin (env : Env) (id handle root name newHash : String)
    (s : St) :
    ∃ rest, (recordAndPublish env id handle root name newHash s).state.trace =
        s.trace ++ [.Write name handle root newHash, .Pin newHash] ++ rest ∧
      (recordAndPublish env id handle root name newHash s).state.disk =
        (s.written env name handle root newHash).disk := by
  cases hopen : env.boltOpen (path.Join root boltDB) with
  | some e =>
    rw [recordAndPublish_open_fails _ _ _ _ _ _ _ _ hopen]
    refine ⟨[.PrintDB handle root, .Read (path.Join root boltDB) handle root], ?_, ?_⟩
    · simp [Outcome.state]
    · simp [Outcome.state, St.written, hopen]
  | none =>
    cases hb1 : txBucket (diskGet (diskAfterWrite s.disk name handle root newHash)
        (path.Join root boltDB)) handle with
    | none =>
      rw [recordAndPublish_no_bucket _ _ _ _ _ _ _ hopen hb1]
      refine ⟨[.PrintDB handle root], ?_, ?_⟩
      · simp [Outcome.state]
      · simp [Outcome.state, St.written, hopen]
    | some b1 =>
      rw [recordAndPublish_eq _ _ _ _ _ _ _ b1 hopen hb1]
      cases hp : env.Publish "" (bucketGet b1 (path.Join root boltDB)) with
      | some e =>
        refine ⟨[.PrintDB handle root, .Read (path.Join root boltDB) handle root,
          .Publish "" (bucketGet b1 (path.Join root boltDB))], ?_, ?_⟩
        · simp [Outcome.state, stAtPublish]
        · simp [Outcome.state, stAtPublish, St.written, hopen]
      | none =>
        cases hr : (env.Resolve id).2 with
        | some e =>
          refine ⟨[.PrintDB handle root, .Read (path.Join root boltDB) handle root,
            .Publish "" (bucketGet b1 (path.Join root boltDB)), .Resolve id], ?_, ?_⟩
          · simp [Outcome.state, stAtPublish]
          · simp [Outcome.state, stAtPublish, St.written, hopen]
        | none =>
          refine ⟨[.PrintDB handle root, .Read (path.Join root boltDB) handle root,
            .Publish "" (bucketGet b1 (path.Join root boltDB)), .Resolve id], ?_, ?_⟩
          · simp [Outcome.state, stAtPublish]
          · simp [Outcome.state, stAtPublish, St.written, hopen]

/-- C7 (recorded iff hashed and pinned), at a failing pin.  `Upload` on a root
with the one file `a.txt`, in an environment whose `Pin` fails: `Upload`
returns the error of the pin call, and the entry of `/r/a.txt` is recorded. -/
theorem Upload_pin_failure_leaves_entry :
    Upload (pinFailsEnv "Qm1" "X" (fun loc => loc == "/r")) "jack" "/r"
        (.dir "r" none [.file "a.txt"]) (freshOn []) =
      .ok (some "pin: context deadline exceeded")
        { disk := jackDisk [("/r/a.txt", "Qm1")],
          trace := [.Add (some "/r/a.txt"), .Write "/r/a.txt" "jack" "/r" "Qm1", .Pin "Qm1"],
          log := [] } := by
  decide

/-- C7 as amended.  Every `Write` that `Upload` makes is for a path that is
no directory, opened and was hashed without error, carries the hash `Add`
returned, and stands between that `Add` and the `Pin` of the hash (so a failed
`Add` leaves no entry written by `Upload`).  The entry is written before the
pin call: the sequence that records and publishes in the event branches calls
`Write`, then `Pin`, and ends with the disk the `Write` left, whatever `Pin`
answers. -/
theorem recorded_after_hash_before_pin (env : Env) (handle root : String) (s : St) :
    (∀ tree, ∃ cs, (Upload env handle root tree s).state.trace = s.trace ++ cs ∧
      HashedThenPinned env handle root cs) ∧
    (∀ id name newHash, ∃ rest,
      (recordAndPublish env id handle root name newHash s).state.trace =
        s.trace ++ [.Write name handle root newHash, .Pin newHash] ++ rest ∧
      (recordAndPublish env id handle root name newHash s).state.disk =
        (s.written env name handle root newHash).disk) :=
  ⟨fun tree => Upload_hashed env handle root tree s,
   fun id name newHash => recordAndPublish_write_then_pin env id handle root name newHash s⟩

/-- C8 (directories are never recorded), evaluated at a create event on a
directory.  `/r/sub` is a directory; `os.Open` opens it, `Add` fails on it and
answers the empty hash.  The create branch has no `IsDir` test: it records the
directory path, with the empty hash.  `Upload` on the same tree, which has the
test, writes nothing for `/r/sub`. -/
theorem create_event_on_directory_recorded :
    (onEvent (dirEnv "Qm1" "X" (fun loc => loc == "/r" || loc == "/r/sub")) "X" "jack" "/r"
        { Name := "/r/sub", Op := fsnotify.Create }
        (freshOn (jackDisk [("/r/a.txt", "Qm1")]))).state.disk =
      jackDisk [("/r/a.txt", "Qm1"), ("/r/sub", "")] ∧
    (Upload (dirEnv "Qm1" "X" (fun loc => loc == "/r" || loc == "/r/sub")) "jack" "/r"
        (.dir "r" none [.file "a.txt", .dir "sub" none []]) (freshOn [])).state.disk =
      jackDisk [("/r/a.txt", "Qm1")] := by
  constructor <;> decide

/-! ## The event branches -/

@[simp] theorem St.logIf_log_none (s : St) : (s.logIf none).log = s.log := rfl
@[simp] theorem St.logIf_log_some (s : St) (e : String) :
    (s.logIf (some e)).log = s.log ++ ["error: " ++ e] := rfl
@[simp] theorem St.logIf_none (s : St) : s.logIf none = s := rfl

@[simp] theorem St.hashed_disk (s : St) (env : Env) (name : String) :
    (s.hashed env name).disk = s.disk := by
  simp [St.hashed]

@[simp] theorem St.hashed_trace (s : St) (env : Env) (name : String) :
    (s.hashed env name).trace = s.trace ++ [.Add (osOpen env name).1] := by
  simp [St.hashed]

theorem onEvent_create (env : Env) (id handle root : String) (event : fsnotify.Event)
    (s : St) (hcreate : event.Op &&& fsnotify.Create = fsnotify.Create) :
    onEvent env id handle root event s =
      recordAndPublish env id handle root event.Name (env.Add (osOpen env event.Name).1).1
        (s.hashed env event.Name) := by
  unfold onEvent
  simp only [hcreate, if_true, Proc.bind_apply, Proc.bind, logIfError_eq, shell_Add_eq,
    St.hashed]

theorem onEvent_write (env : Env) (id handle root : String) (event : fsnotify.Event)
    (s : St) (hcreate : event.Op &&& fsnotify.Create ≠ fsnotify.Create)
    (hwrite : event.Op &&& fsnotify.Write = fsnotify.Write)
    (hname : event.Name ≠ path.Join root boltDB) :
    onEvent env id handle root event s =
      match Read env event.Name handle root s with
      | .ok r s1 =>
        if (env.Add (osOpen env event.Name).1).1 ≠ r.1 then
          recordAndPublish env id handle root event.Name
            (env.Add (osOpen env event.Name).1).1 ((s1.logIf r.2).hashed env event.Name)
        else .ok () ((s1.logIf r.2).hashed env event.Name)
      | .fatal s1 => .fatal s1
      | .panic s1 => .panic s1 := by
  unfold onEvent
  simp only [hcreate, hwrite, hname, if_true, if_false, ne_eq, not_false_eq_true,
    Proc.bind_apply, Proc.bind]
  cases hr : Read env event.Name handle root s with
  | ok r s1 =>
    simp only [logIfError_eq, shell_Add_eq, St.hashed]
    by_cases hd : (env.Add (osOpen env event.Name).1).1 = r.1
    · simp [hd]
    · simp [hd]
  | fatal s1 => rfl
  | panic s1 => rfl

theorem onEvent_other (env : Env) (id handle root : String) (event : fsnotify.Event)
    (s : St) (hcreate : event.Op &&& fsnotify.Create ≠ fsnotify.Create)
    (hother : event.Op &&& fsnotify.Write ≠ fsnotify.Write ∨
      event.Name = path.Join root boltDB) :
    onEvent env id handle root event s = .ok () s := by
  unfold onEvent
  rcases hother with h | h
  · simp [hcreate, h]
  · by_cases hw : event.Op &&& fsnotify.Write = fsnotify.Write
    · simp [hcreate, hw, h]
    · simp [hcreate, hw]

/-! ## The published value -/

/-- A `Read` returns or dies; either way the call is in the trace and nothing
else changes. -/
theorem Read_cases (env : Env) (id handle root : String) (s : St) :
    (∃ r, Read env id handle root s = .ok r (s.called (.Read id handle root))) ∨
    Read env id handle root s = .panic (s.called (.Read id handle root)) := by
  rw [Read_eq]
  cases env.boltOpen (path.Join root boltDB) with
  | some e => exact Or.inl ⟨_, rfl⟩
  | none =>
    cases txBucket (diskGet s.disk (path.Join root boltDB)) handle with
    | none => exact Or.inr rfl
    | some b => exact Or.inl ⟨_, rfl⟩

/-- Whatever `recordAndPublish` publishes is the value the store holds, at the
end of the sequence, under the path of the database file; and the sequence
makes no `Add` call. -/
theorem recordAndPublish_publish (env : Env) (id handle root name newHash : String)
    (s : St) :
    ∃ cs, (recordAndPublish env id handle root name newHash s).state.trace = s.trace ++ cs ∧
      (∀ node v, Call.Publish node v ∈ cs → node = "" ∧
        ∃ b, txBucket (diskGet (recordAndPublish env id handle root name newHash s).state.disk
            (path.Join root boltDB)) handle = some b ∧
          v = bucketGet b (path.Join root boltDB)) ∧
      (∀ fi, Call.Add fi ∉ cs) := by
  cases hopen : env.boltOpen (path.Join root boltDB) with
  | some e =>
    rw [recordAndPublish_open_fails _ _ _ _ _ _ _ _ hopen]
    refine ⟨[.Write name handle root newHash, .Pin newHash, .PrintDB handle root,
      .Read (path.Join root boltDB) handle root], ?_, ?_, ?_⟩
    · simp [Outcome.state]
    · intro node v hmem
      simp at hmem
    · intro fi hmem
      simp at hmem
  | none =>
    cases hb1 : txBucket (diskGet (diskAfterWrite s.disk name handle root newHash)
        (path.Join root boltDB)) handle with
    | none =>
      rw [recordAndPublish_no_bucket _ _ _ _ _ _ _ hopen hb1]
      refine ⟨[.Write name handle root newHash, .Pin newHash, .PrintDB handle root],
        ?_, ?_, ?_⟩
      · simp [Outcome.state]
      · intro node v hmem
        simp at hmem
      · intro fi hmem
        simp at hmem
    | some b1 =>
      rw [recordAndPublish_eq _ _ _ _ _ _ _ b1 hopen hb1]
      cases hp : env.Publish "" (bucketGet b1 (path.Join root boltDB)) with
      | some e =>
        refine ⟨[.Write name handle root newHash, .Pin newHash, .PrintDB handle root,
          .Read (path.Join root boltDB) handle root,
          .Publish "" (bucketGet b1 (path.Join root boltDB))], ?_, ?_, ?_⟩
        · simp [Outcome.state, stAtPublish]
        · intro node v hmem
          simp only [List.mem_cons, reduceCtorEq, false_or, Call.Publish.injEq,
            List.mem_singleton, List.not_mem_nil, or_false] at hmem
          obtain ⟨rfl, rfl⟩ := hmem
          exact ⟨rfl, b1, by simpa [Outcome.state, stAtPublish] using hb1, rfl⟩
        · intro fi hmem
          simp at hmem
      | none =>
        have hcs : ∀ st : St, st.disk = diskAfterWrite s.disk name handle root newHash →
            st.trace = s.trace ++ [.Write name handle root newHash, .Pin newHash,
              .PrintDB handle root, .Read (path.Join root boltDB) handle root,
              .Publish "" (bucketGet b1 (path.Join root boltDB)), .Resolve id] →
            ∃ cs, st.trace = s.trace ++ cs ∧
              (∀ node v, Call.Publish node v ∈ cs → node = "" ∧
                ∃ b, txBucket (diskGet st.disk (path.Join root boltDB)) handle = some b ∧
                  v = bucketGet b (path.Join root boltDB)) ∧
              (∀ fi, Call.Add fi ∉ cs) := by
          intro st hd ht
          refine ⟨_, ht, ?_, ?_⟩
          · intro node v hmem
            simp only [List.mem_cons, reduceCtorEq, false_or, Call.Publish.injEq,
              List.mem_singleton, List.not_mem_nil, or_false] at hmem
            obtain ⟨rfl, rfl⟩ := hmem
            exact ⟨rfl, b1, by rw [hd]; exact hb1, rfl⟩
          · intro fi hmem
            simp at hmem
        cases hr : (env.Resolve id).2 with
        | some e =>
          exact hcs _ (by simp [Outcome.state, stAtPublish])
            (by simp [Outcome.state, stAtPublish])
        | none =>
          exact hcs _ (by simp [Outcome.state, stAtPublish])
            (by simp [Outcome.state, stAtPublish])

theorem osOpen_fst (env : Env) (name : String) :
    (osOpen env name).1 = none ∨ (osOpen env name).1 = some name := by
  unfold osOpen
  cases env.Open name <;> simp

/-- C10 (published value), at a create event.  The store holds `QmOld` under
the path of its backing file and `Add` answers `Qm2` for every file.  The
create event on `/r/a.txt` makes no `Add` call on the backing file and
publishes `QmOld`, the value recorded earlier, not `Qm2`. -/
theorem create_event_publishes_recorded_value :
    (onEvent (calmEnv "Qm2" "X" (fun _ => false)) "X" "jack" "/r"
        { Name := "/r/a.txt", Op := fsnotify.Create }
        (freshOn (jackDisk [("/r/cabinet.db", "QmOld")]))).state.trace =
      [.Add (some "/r/a.txt"), .Write "/r/a.txt" "jack" "/r" "Qm2", .Pin "Qm2",
       .PrintDB "jack" "/r", .Read "/r/cabinet.db" "jack" "/r", .Publish "" "QmOld",
       .Resolve "X"] ∧
    (calmEnv "Qm2" "X" (fun _ => false)).Add (some (path.Join "/r" boltDB)) = ("Qm2", none) := by
  constructor <;> decide

/-- C10 as amended.  Whatever the processing of an event publishes, it
publishes under the empty key name, and the value is the one the store holds
under the path of its backing file at the end of the processing, read back by
`Read`; and unless the event is on the backing file itself, the processing
makes no `Add` call on the backing file. -/
theorem published_value_is_read_back (env : Env) (id handle root : String)
    (event : fsnotify.Event) (s : St) :
    ∃ cs, (onEvent env id handle root event s).state.trace = s.trace ++ cs ∧
      (∀ node v, Call.Publish node v ∈ cs → node = "" ∧
        ∃ b, txBucket (diskGet (onEvent env id handle root event s).state.disk
            (path.Join root boltDB)) handle = some b ∧
          v = bucketGet b (path.Join root boltDB)) ∧
      (event.Name ≠ path.Join root boltDB → Call.Add (some (path.Join root boltDB)) ∉ cs) := by
  have hfi : event.Name ≠ path.Join root boltDB →
      (osOpen env event.Name).1 ≠ some (path.Join root boltDB) := by
    intro hne h
    rcases osOpen_fst env event.Name with h1 | h1
    · rw [h1] at h
      simp at h
    · rw [h1] at h
      exact hne (Option.some.inj h)
  by_cases hcreate : event.Op &&& fsnotify.Create = fsnotify.Create
  · rw [onEvent_create _ _ _ _ _ _ hcreate]
    obtain ⟨cs, ht, hp, ha⟩ := recordAndPublish_publish env id handle root event.Name
      (env.Add (osOpen env event.Name).1).1 (s.hashed env event.Name)
    refine ⟨.Add (osOpen env event.Name).1 :: cs, ?_, ?_, ?_⟩
    · rw [ht]
      simp
    · intro node v hmem
      simp only [List.mem_cons, reduceCtorEq, false_or] at hmem
      exact hp node v hmem
    · intro hne hmem
      simp only [List.mem_cons, Call.Add.injEq] at hmem
      rcases hmem with h | h
      · exact hfi hne h.symm
      · exact ha _ h
  · by_cases hw : event.Op &&& fsnotify.Write = fsnotify.Write ∧
        event.Name ≠ path.Join root boltDB
    · rw [onEvent_write _ _ _ _ _ _ hcreate hw.1 hw.2]
      rcases Read_cases env event.Name handle root s with ⟨r, hr⟩ | hr
      · rw [hr]
        simp only
        by_cases hd : (env.Add (osOpen env event.Name).1).1 = r.1
        · simp only [hd, ne_eq, not_true_eq_false, if_false]
          refine ⟨[.Read event.Name handle root, .Add (osOpen env event.Name).1], ?_, ?_, ?_⟩
          · simp [Outcome.state]
          · intro node v hmem
            simp at hmem
          · intro hne hmem
            simp only [List.mem_cons, reduceCtorEq, false_or, Call.Add.injEq,
              List.mem_singleton, List.not_mem_nil, or_false] at hmem
            exact hfi hne hmem.symm
        · simp only [hd, ne_eq, not_false_eq_true, if_true]
          obtain ⟨cs, ht, hp, ha⟩ := recordAndPublish_publish env id handle root event.Name
            (env.Add (osOpen env event.Name).1).1
            (((s.called (.Read event.Name handle root)).logIf r.2).hashed env event.Name)
          refine ⟨.Read event.Name handle root :: .Add (osOpen env event.Name).1 :: cs,
            ?_, ?_, ?_⟩
          · rw [ht]
            simp
          · intro node v hmem
            simp only [List.mem_cons, reduceCtorEq, false_or] at hmem
            exact hp node v hmem
          · intro hne hmem
            simp only [List.mem_cons, reduceCtorEq, false_or, Call.Add.injEq] at hmem
            rcases hmem with h | h
            · exact hfi hne h.symm
            · exact ha _ h
      · rw [hr]
        refine ⟨[.Read event.Name handle root], ?_, ?_, ?_⟩
        · simp [Outcome.state]
        · intro node v hmem
          simp at hmem
        · intro _ hmem
          simp at hmem
    · have hother : event.Op &&& fsnotify.Write ≠ fsnotify.Write ∨
          event.Name = path.Join root boltDB := by
        by_cases h1 : event.Op &&& fsnotify.Write = fsnotify.Write
        · right
          by_contra h2
          exact hw ⟨h1, h2⟩
        · exact Or.inl h1
      rw [onEvent_other _ _ _ _ _ _ hcreate hother]
      refine ⟨[], ?_, ?_, ?_⟩
      · simp [Outcome.state]
      · intro node v hmem
        simp at hmem
      · intro _ hmem
        simp at hmem

/-! ## Errors in the loop -/

theorem St.logIf_log (s : St) (err : GoError) : (s.logIf err).log = s.log ++ errLine err := by
  cases err <;> simp [errLine]

theorem St.hashed_log (s : St) (env : Env) (name : String) :
    (s.hashed env name).log =
      s.log ++ errLine (osOpen env name).2 ++ errLine (env.Add (osOpen env name).1).2 := by
  simp [St.hashed, St.logIf_log]

theorem stAtPublish_log (env : Env) (handle root name newHash dbHash : String) (s : St) :
    (stAtPublish env handle root name newHash dbHash s).log =
      s.log ++ errLine (env.Pin newHash) := by
  simp [stAtPublish, St.logIf_log]

theorem osOpen_snd (env : Env) (name : String) : (osOpen env name).2 = env.Open name := by
  unfold osOpen
  cases env.Open name <;> rfl

theorem watchLoop_event (id handle root : String) (env : Env) (event : fsnotify.Event)
    (rest : List (Env × Msg)) (s : St) :
    watchLoop id handle root ((env, .event event) :: rest) s =
      Proc.bind (onEvent env id handle root event) (fun _ => watchLoop id handle root rest) s := by
  rw [watchLoop]
  rfl

/-- With a store that opens and holds the bucket of the handle, and with
`Publish` and `Resolve` succeeding, `recordAndPublish` returns, and a failure of
`Pin` is in the log. -/
theorem recordAndPublish_returns (env : Env) (id handle root name newHash : String) (s : St)
    (b : Bucket) (hopen : env.boltOpen (path.Join root boltDB) = none)
    (hb : txBucket (diskGet s.disk (path.Join root boltDB)) handle = some b)
    (hpub : ∀ v, env.Publish "" v = none) (hres : (env.Resolve id).2 = none) :
    ∃ s2, recordAndPublish env id handle root name newHash s = .ok () s2 ∧
      s2.log = s.log ++ errLine (env.Pin newHash) := by
  obtain ⟨b1, hb1⟩ := txBucket_diskAfterWrite s.disk name handle root newHash b hb
  rw [recordAndPublish_eq _ _ _ _ _ _ _ b1 hopen hb1, hpub]
  simp only [hres]
  exact ⟨_, rfl, by simp [stAtPublish_log]⟩

/-- With a store that opens and holds the bucket of the handle, a create event,
and a write event on another path than the backing file whose new hash differs
from the stored one, run `recordAndPublish` after the hashing. -/
theorem onEvent_reaches (env : Env) (id handle root : String) (event : fsnotify.Event)
    (s : St) (b : Bucket) (hopen : env.boltOpen (path.Join root boltDB) = none)
    (hb : txBucket (diskGet s.disk (path.Join root boltDB)) handle = some b)
    (hreach : event.Op &&& fsnotify.Create = fsnotify.Create ∨
      (event.Op &&& fsnotify.Write = fsnotify.Write ∧ event.Name ≠ path.Join root boltDB ∧
        (env.Add (osOpen env event.Name).1).1 ≠ bucketGet b event.Name)) :
    ∃ s1, onEvent env id handle root event s =
        recordAndPublish env id handle root event.Name
          (env.Add (osOpen env event.Name).1).1 s1 ∧
      s1.disk = s.disk ∧
      s1.log = s.log ++ errLine (osOpen env event.Name).2 ++
        errLine (env.Add (osOpen env event.Name).1).2 := by
  by_cases hcreate : event.Op &&& fsnotify.Create = fsnotify.Create
  · exact ⟨s.hashed env event.Name, onEvent_create _ _ _ _ _ _ hcreate, by simp,
      St.hashed_log _ _ _⟩
  · rcases hreach with h | ⟨hw, hname, hd⟩
    · exact absurd h hcreate
    · refine ⟨((s.called (.Read event.Name handle root)).logIf none).hashed env event.Name,
        ?_, by simp, by simp [St.hashed_log]⟩
      rw [onEvent_write _ _ _ _ _ _ hcreate hw hname, Read_eq, hopen]
      simp only [hb, ne_eq, hd, not_false_eq_true, if_true]

/-- With a store that does not open, a create event, and a write event on
another path than the backing file whose new hash is not empty, run
`recordAndPublish` after the hashing. -/
theorem onEvent_reaches_closed (env : Env) (id handle root e : String)
    (event : fsnotify.Event) (s : St)
    (hopen : env.boltOpen (path.Join root boltDB) = some e)
    (hreach : event.Op &&& fsnotify.Create = fsnotify.Create ∨
      (event.Op &&& fsnotify.Write = fsnotify.Write ∧ event.Name ≠ path.Join root boltDB ∧
        (env.Add (osOpen env event.Name).1).1 ≠ "")) :
    ∃ s1, onEvent env id handle root event s =
        recordAndPublish env id handle root event.Name
          (env.Add (osOpen env event.Name).1).1 s1 := by
  by_cases hcreate : event.Op &&& fsnotify.Create = fsnotify.Create
  · exact ⟨s.hashed env event.Name, onEvent_create _ _ _ _ _ _ hcreate⟩
  · rcases hreach with h | ⟨hw, hname, hd⟩
    · exact absurd h hcreate
    · refine ⟨((s.called (.Read event.Name handle root)).logIf (some e)).hashed env
        event.Name, ?_⟩
      rw [onEvent_write _ _ _ _ _ _ hcreate hw hname, Read_eq, hopen]
      simp only [ne_eq, hd, not_false_eq_true, if_true]

theorem watchLoop_fatal (id handle root : String) (env : Env) (event : fsnotify.Event)
    (rest : List (Env × Msg)) (s s2 : St)
    (h : onEvent env id handle root event s = .fatal s2) :
    watchLoop id handle root ((env, .event event) :: rest) s = .fatal s2 := by
  rw [watchLoop_event]
  exact Proc.bind_fatal _ _ _ _ h

theorem watchLoop_ok (id handle root : String) (env : Env) (event : fsnotify.Event)
    (rest : List (Env × Msg)) (s s2 : St)
    (h : onEvent env id handle root event s = .ok () s2) :
    watchLoop id handle root ((env, .event event) :: rest) s =
      watchLoop id handle root rest s2 := by
  rw [watchLoop_event]
  exact Proc.bind_ok _ _ _ _ _ h

/-- C9 (reactive-phase errors), at a failing publish and at a failing pin.
With a failing `Publish`, the create event on `/r/a.txt` ends the process
through `log.Fatal`: the loop does not process the create event on `/r/b.txt`
that follows.  With a failing `Pin`, the error is logged and the rest of the
sequence (`PrintDB`, the read, `Publish`, `Resolve`) is run all the same. -/
theorem publish_failure_ends_the_loop :
    watchLoop "X" "jack" "/r"
        [(publishFailsEnv "Qm1" "X" (fun _ => false),
            .event { Name := "/r/a.txt", Op := fsnotify.Create }),
         (calmEnv "Qm1" "X" (fun _ => false),
            .event { Name := "/r/b.txt", Op := fsnotify.Create })]
        (freshOn (jackDisk [])) =
      .fatal { disk := jackDisk [("/r/a.txt", "Qm1")],
               trace := [.Add (some "/r/a.txt"), .Write "/r/a.txt" "jack" "/r" "Qm1",
                 .Pin "Qm1", .PrintDB "jack" "/r", .Read "/r/cabinet.db" "jack" "/r",
                 .Publish "" ""],
               log := ["publish: connection refused"] } ∧
    onEvent (pinFailsEnv "Qm1" "X" (fun _ => false)) "X" "jack" "/r"
        { Name := "/r/a.txt", Op := fsnotify.Create } (freshOn (jackDisk [])) =
      .ok () { disk := jackDisk [("/r/a.txt", "Qm1")],
               trace := [.Add (some "/r/a.txt"), .Write "/r/a.txt" "jack" "/r" "Qm1",
                 .Pin "Qm1", .PrintDB "jack" "/r", .Read "/r/cabinet.db" "jack" "/r",
                 .Publish "" "", .Resolve "X"],
               log := ["error: pin: context deadline exceeded"] } := by
  constructor <;> decide

/-- C9 as amended.  For every event, with the new hash the one `Add` returns:
(1) when the store opens and holds the bucket of the handle and `Publish` and
`Resolve` succeed, the processing of the event returns whatever `os.Open`,
`Add` and `Pin` answer, their errors are in the log, and the loop goes on with
the next message; (2) when the store does not open, an event that reaches the
recording (a create event, or a write event on another path than the backing
file with a new hash that is not empty) ends the process through `log.Fatal`
with the error in the log, and the loop processes nothing more; (3) when the
store opens and holds the bucket of the handle and `Publish` or `Resolve`
fails, an event that reaches the recording (a create event, or a write event
on another path than the backing file with a new hash that differs from the
stored one) ends the process through `log.Fatal` with the error in the log,
and the loop processes nothing more. -/
theorem reactive_errors (env : Env) (id handle root : String) (event : fsnotify.Event)
    (rest : List (Env × Msg)) (s : St) :
    (∀ b, env.boltOpen (path.Join root boltDB) = none →
      txBucket (diskGet s.disk (path.Join root boltDB)) handle = some b →
      (∀ v, env.Publish "" v = none) → (env.Resolve id).2 = none →
      ∃ s2, onEvent env id handle root event s = .ok () s2 ∧
        watchLoop id handle root ((env, .event event) :: rest) s =
          watchLoop id handle root rest s2 ∧
        ((event.Op &&& fsnotify.Create = fsnotify.Create ∨
            (event.Op &&& fsnotify.Write = fsnotify.Write ∧
              event.Name ≠ path.Join root boltDB)) →
          (∀ e, env.Open event.Name = some e → "error: " ++ e ∈ s2.log) ∧
          (∀ e, (env.Add (osOpen env event.Name).1).2 = some e → "error: " ++ e ∈ s2.log)) ∧
        ((event.Op &&& fsnotify.Create = fsnotify.Create ∨
            (event.Op &&& fsnotify.Write = fsnotify.Write ∧
              event.Name ≠ path.Join root boltDB ∧
              (env.Add (osOpen env event.Name).1).1 ≠ bucketGet b event.Name)) →
          ∀ e, env.Pin (env.Add (osOpen env event.Name).1).1 = some e →
            "error: " ++ e ∈ s2.log)) ∧
    (∀ e, env.boltOpen (path.Join root boltDB) = some e →
      (event.Op &&& fsnotify.Create = fsnotify.Create ∨
        (event.Op &&& fsnotify.Write = fsnotify.Write ∧
          event.Name ≠ path.Join root boltDB ∧
          (env.Add (osOpen env event.Name).1).1 ≠ "")) →
      ∃ s2, onEvent env id handle root event s = .fatal s2 ∧ e ∈ s2.log ∧
        watchLoop id handle root ((env, .event event) :: rest) s = .fatal s2) ∧
    (∀ b, env.boltOpen (path.Join root boltDB) = none →
      txBucket (diskGet s.disk (path.Join root boltDB)) handle = some b →
      (event.Op &&& fsnotify.Create = fsnotify.Create ∨
        (event.Op &&& fsnotify.Write = fsnotify.Write ∧
          event.Name ≠ path.Join root boltDB ∧
          (env.Add (osOpen env event.Name).1).1 ≠ bucketGet b event.Name)) →
      ((∀ v, env.Publish "" v ≠ none) ∨ (env.Resolve id).2 ≠ none) →
      ∃ s2, onEvent env id handle root event s = .fatal s2 ∧
        ((∃ v e, env.Publish "" v = some e ∧ e ∈ s2.log) ∨
          (∃ e, (env.Resolve id).2 = some e ∧ e ∈ s2.log)) ∧
        watchLoop id handle root ((env, .event event) :: rest) s = .fatal s2) := by
  refine ⟨?_, ?_, ?_⟩
  · intro b hopen hb hpub hres
    by_cases hreach : event.Op &&& fsnotify.Create = fsnotify.Create ∨
        (event.Op &&& fsnotify.Write = fsnotify.Write ∧
          event.Name ≠ path.Join root boltDB ∧
          (env.Add (osOpen env event.Name).1).1 ≠ bucketGet b event.Name)
    · obtain ⟨s1, h1, hd1, hl1⟩ := onEvent_reaches env id handle root event s b hopen hb hreach
      obtain ⟨s2, h2, hl2⟩ := recordAndPublish_returns env id handle root event.Name
        (env.Add (osOpen env event.Name).1).1 s1 b hopen (by rw [hd1]; exact hb) hpub hres
      refine ⟨s2, by rw [h1, h2], watchLoop_ok _ _ _ _ _ _ _ _ (by rw [h1, h2]), ?_, ?_⟩
      · intro _
        constructor
        · intro e he
          rw [hl2, hl1, osOpen_snd, he]
          simp [errLine]
        · intro e he
          rw [hl2, hl1, he]
          simp [errLine]
      · intro _ e he
        rw [hl2, he]
        simp [errLine]
    · have hnc : event.Op &&& fsnotify.Create ≠ fsnotify.Create := fun h => hreach (Or.inl h)
      by_cases hw : event.Op &&& fsnotify.Write = fsnotify.Write ∧
          event.Name ≠ path.Join root boltDB
      · have hsame : (env.Add (osOpen env event.Name).1).1 = bucketGet b event.Name := by
          by_contra h
          exact hreach (Or.inr ⟨hw.1, hw.2, h⟩)
        have hev : onEvent env id handle root event s = .ok ()
            (((s.called (.Read event.Name handle root)).logIf none).hashed env event.Name) := by
          rw [onEvent_write _ _ _ _ _ _ hnc hw.1 hw.2, Read_eq, hopen]
          simp only [hb, ne_eq, hsame, not_true_eq_false, if_false]
        refine ⟨_, hev, watchLoop_ok _ _ _ _ _ _ _ _ hev, ?_, ?_⟩
        · intro _
          constructor
          · intro e he
            rw [St.hashed_log, osOpen_snd, he]
            simp [errLine]
          · intro e he
            rw [St.hashed_log, he]
            simp [errLine]
        · intro h
          exact absurd h hreach
      · have hother : event.Op &&& fsnotify.Write ≠ fsnotify.Write ∨
            event.Name = path.Join root boltDB := by
          by_cases h1 : event.Op &&& fsnotify.Write = fsnotify.Write
          · right
            by_contra h2
            exact hw ⟨h1, h2⟩
          · exact Or.inl h1
        have hev := onEvent_other env id handle root event s hnc hother
        refine ⟨s, hev, watchLoop_ok _ _ _ _ _ _ _ _ hev, ?_, ?_⟩
        · intro h
          rcases h with h | h
          · exact absurd h hnc
          · exact absurd h hw
        · intro h
          exact absurd h hreach
  · intro e hopen hreach
    obtain ⟨s1, h1⟩ := onEvent_reaches_closed env id handle root e event s hopen hreach
    have hev := recordAndPublish_open_fails env id handle root event.Name
      (env.Add (osOpen env event.Name).1).1 e s1 hopen
    exact ⟨_, by rw [h1, hev], by simp, watchLoop_fatal _ _ _ _ _ _ _ _ (by rw [h1, hev])⟩
  · intro b hopen hb hreach hfail
    obtain ⟨s1, h1, hd1, _⟩ := onEvent_reaches env id handle root event s b hopen hb hreach
    obtain ⟨b1, hb1⟩ := txBucket_diskAfterWrite s1.disk event.Name handle root
      (env.Add (osOpen env event.Name).1).1 b (by rw [hd1]; exact hb)
    have hev := recordAndPublish_eq env id handle root event.Name
      (env.Add (osOpen env event.Name).1).1 s1 b1 hopen hb1
    cases hp : env.Publish "" (bucketGet b1 (path.Join root boltDB)) with
    | some e1 =>
      rw [hp] at hev
      exact ⟨_, by rw [h1, hev], Or.inl ⟨_, e1, hp, by simp⟩,
        watchLoop_fatal _ _ _ _ _ _ _ _ (by rw [h1, hev])⟩
    | none =>
      rw [hp] at hev
      rcases hfail with hf | hf
      · exact absurd hp (hf _)
      · cases hr : (env.Resolve id).2 with
        | none => exact absurd hr hf
        | some e1 =>
          simp only [hr] at hev
          exact ⟨_, by rw [h1, hev], Or.inr ⟨e1, rfl, by simp⟩,
            watchLoop_fatal _ _ _ _ _ _ _ _ (by rw [h1, hev])⟩

/-- Witness for C9 as amended: with a failing `Pin` the create event on
`/r/a.txt` is processed to its end and the error of the pin call is in the
log; with a failing `Publish` it ends the process. -/
theorem reactive_errors_witness :
    (∃ s2, onEvent (pinFailsEnv "Qm1" "X" (fun _ => false)) "X" "jack" "/r"
        { Name := "/r/a.txt", Op := fsnotify.Create } (freshOn (jackDisk [])) = .ok () s2 ∧
      "error: " ++ "pin: context deadline exceeded" ∈ s2.log) ∧
    (∃ s2, onEvent (publishFailsEnv "Qm1" "X" (fun _ => false)) "X" "jack" "/r"
        { Name := "/r/a.txt", Op := fsnotify.Create } (freshOn (jackDisk [])) = .fatal s2) := by
  constructor
  · obtain ⟨s2, h1, _, _, h4⟩ :=
      (reactive_errors (pinFailsEnv "Qm1" "X" (fun _ => false)) "X" "jack" "/r"
        { Name := "/r/a.txt", Op := fsnotify.Create } [] (freshOn (jackDisk []))).1
        [] (by decide) (by decide) (fun _ => rfl) (by decide)
    exact ⟨s2, h1, h4 (Or.inl (by decide)) _ rfl⟩
  · obtain ⟨s2, h1, _⟩ :=
      (reactive_errors (publishFailsEnv "Qm1" "X" (fun _ => false)) "X" "jack" "/r"
        { Name := "/r/a.txt", Op := fsnotify.Create } [] (freshOn (jackDisk []))).2.2
        [] (by decide) (by decide) (Or.inl (by decide))
        (Or.inl (fun _ h => by simp [publishFailsEnv] at h))
    exact ⟨s2, h1⟩

end Cabinet
